import Mathlib

/-!
# ObjectManager: a reference-counted, compacting memory pool

A shallow embedding of `src/ObjectManager.c` and the properties proved about it.

Modelling conventions.

* The globals of the C file (`numObjMngrs`, `activeBuffer`, `inactiveBuffer`,
  `referenceID`, `nextAvailableIndex`, `indexing`) are the fields of `Pool`; every C
  function becomes a function on `Pool`.
* The linked list hanging off `indexing->top` is a `List Node`, head first.
* `int` values are `Int`, `unsigned long` values are `Nat`.  Arithmetic and comparisons
  on offsets, sizes and the cursor are exact, also the test
  `size <= MEMORY_SIZE - nextAvailableIndex`: in every reachable state the cursor and
  the offsets lie in `[0, MEMORY_SIZE]` (see `Inv`).  The counter `referenceID` is not
  bounded.  A negative argument passed to `insertObject(ulong)` is converted by
  `toUlong`.
* The reference count `objReferenceCount` is a 32-bit `int` that `addReference` and
  `dropReference` step with `++` and `--` and no test of the bound.  The two steps are
  `incrementInt` and `decrementInt`: exact inside the range of `int`, wrapping around
  from `INT_MAX` to `INT_MIN` and back.
* A buffer is a block of `MEMORY_SIZE` bytes.  A pointer to it is `Option Buffer`
  (`none` is `NULL`).  Reading or writing through `NULL` or outside
  `[0, MEMORY_SIZE)` has no defined behaviour in C: the embedding returns `none`.
* `MEMORY_SIZE` (declared in the absent header `ObjectManager.h`) is a parameter.
* The `assert`s are compiled out (`NDEBUG`): the test suite calls the interface on an
  uninitialised pool and with unknown references and expects `NULL_REF` / `NULL`
  back.  `checkNode` and `checkIndex` are kept as Boolean predicates.
* `malloc` is assumed to succeed; the contents of a fresh buffer are arbitrary and are
  passed to `initPool` as arguments.  `printf` output is returned as data where a
  property speaks about it and dropped otherwise.
-/

namespace ObjectManager

/-! ## Data model -/

/-- Reference ids, `typedef unsigned long Ref`. -/
abbrev Ref := Nat

/-- The reserved id meaning "no object". -/
abbrev NULL_REF : Ref := 0

/-- One byte, `unsigned char`. -/
abbrev uchar := Fin 256

/-- The contents of one malloc'ed block, addressed by an `int` subscript. -/
abbrev Buffer := Int → uchar

/-- The `struct NODE` of the source, without its `next` link. -/
structure Node where
  memStartIndex : Int
  memSize : Nat
  objReferenceCount : Int
  objReferenceID : Ref
deriving DecidableEq, Repr

/-- The file-scope variables of `ObjectManager.c`. -/
structure Pool where
  numObjMngrs : Int
  activeBuffer : Option Buffer
  inactiveBuffer : Option Buffer
  referenceID : Ref
  nextAvailableIndex : Int
  indexing : List Node

/-- The statistics line printed by `copyActToNonact`. -/
structure GcStats where
  numObjects : Int
  numBytes : Nat
  numBytesCollected : Nat
deriving DecidableEq, Repr

/-- The value a signed argument takes when converted to `unsigned long` (64 bits). -/
def toUlong (z : Int) : Nat := (z % (2 ^ 64 : Int)).toNat

/-- The largest value of a 32-bit `int`, `2^31 - 1`. -/
def INT_MAX : Int := 2147483647

/-- The smallest value of a 32-bit `int`, `-2^31`. -/
def INT_MIN : Int := -2147483648

/-- The value a 32-bit `int` holds for the arithmetic result `z`: the number in
`[INT_MIN, INT_MAX]` that differs from `z` by a multiple of `2^32` (two's complement). -/
def wrapInt (z : Int) : Int := (z + 2 ^ 31) % 2 ^ 32 - 2 ^ 31

/-- The statement `c++` on a 32-bit `int`.  Below `INT_MAX` the result is `c + 1`.  At
`INT_MAX` the sum does not fit in an `int`: the C standard leaves the result open and
the machine wraps around to `INT_MIN`, which is `wrapInt (c + 1)`. -/
def incrementInt (c : Int) : Int := if c = INT_MAX then INT_MIN else c + 1

/-- The statement `c--` on a 32-bit `int`.  Above `INT_MIN` the result is `c - 1`.  At
`INT_MIN` the difference does not fit in an `int` and the machine wraps around to
`INT_MAX`, which is `wrapInt (c - 1)`. -/
def decrementInt (c : Int) : Int := if c = INT_MIN then INT_MAX else c - 1

/-- The state of the globals at program start: zero-initialised statics. -/
def startState : Pool :=
  { numObjMngrs := 0, activeBuffer := none, inactiveBuffer := none,
    referenceID := 0, nextAvailableIndex := 0, indexing := [] }

/-! ## Buffer access -/

/-- The read `buf[i]`: defined only for an allocated buffer and `0 ≤ i < MEMORY_SIZE`. -/
def readByte (MEMORY_SIZE : Nat) (buf : Option Buffer) (i : Int) : Option uchar :=
  match buf with
  | none => none
  | some b => if 0 ≤ i ∧ i < (MEMORY_SIZE : Int) then some (b i) else none

/-- The write `buf[i] = v`: defined only for an allocated buffer and
`0 ≤ i < MEMORY_SIZE`. -/
def writeByte (MEMORY_SIZE : Nat) (buf : Option Buffer) (i : Int) (v : uchar) :
    Option Buffer :=
  match buf with
  | none => none
  | some b => if 0 ≤ i ∧ i < (MEMORY_SIZE : Int) then some (Function.update b i v) else none

/-! ## Node and index invariants (`checkNode`, `checkIndex`) -/

/-- The conjunction of the assertions of `checkNode`. -/
def checkNode (MEMORY_SIZE : Nat) (referenceID : Ref) (aNode : Node) : Bool :=
  decide (0 ≤ aNode.memStartIndex) && decide (0 < aNode.memSize) &&
  decide (aNode.memSize ≤ MEMORY_SIZE) && decide (0 ≤ aNode.objReferenceCount) &&
  decide (0 < aNode.objReferenceID) && decide (aNode.objReferenceID < referenceID)

/-- The loop of `checkIndex`: every node of the list passes `checkNode`. -/
def checkIndex (MEMORY_SIZE : Nat) (referenceID : Ref) : List Node → Bool
  | [] => true
  | curr :: rest => checkNode MEMORY_SIZE referenceID curr &&
      checkIndex MEMORY_SIZE referenceID rest

/-! ## Index operations -/

/-- The body of `makeNode`: the new node sits at the cursor, the cursor advances by
`memSize`, the id counter advances by one. -/
def makeNode (memSize : Nat) (s : Pool) : Node × Pool :=
  ({ memStartIndex := s.nextAvailableIndex, memSize := memSize,
     objReferenceCount := 1, objReferenceID := s.referenceID },
   { s with nextAvailableIndex := s.nextAvailableIndex + (memSize : Int),
            referenceID := s.referenceID + 1 })

/-- The walk of `insertAtEnd`: an empty list becomes the node, otherwise the node is
linked after the last one. -/
def insertAtEndList (aNode : Node) : List Node → List Node
  | [] => [aNode]
  | curr :: rest => curr :: insertAtEndList aNode rest

/-- The function `insertAtEnd` on the pool. -/
def insertAtEnd (aNode : Node) (s : Pool) : Pool :=
  { s with indexing := insertAtEndList aNode s.indexing }

/-- The loop of `garbageExists`, with the local `present`. -/
def garbageExistsLoop : List Node → Int → Int
  | [], present => present
  | curr :: rest, present =>
      if present ≠ 1 then
        garbageExistsLoop rest (if curr.objReferenceCount = 0 then 1 else present)
      else present

/-- The function `garbageExists`: 1 when some node has no references, else 0. -/
def garbageExists (l : List Node) : Int := garbageExistsLoop l 0

/-- The inner loop of `updateIndex`: walk while `curr->objReferenceCount != 0`.
Returns the nodes passed (the last of them is `prev`), the node `curr` stopped at and
the nodes after it; `none` when `curr` runs off the end (a NULL dereference). -/
def walkToGarbage : List Node → Option (List Node × Node × List Node)
  | [] => none
  | curr :: rest =>
      if curr.objReferenceCount ≠ 0 then
        match walkToGarbage rest with
        | none => none
        | some (passed, c, after) => some (curr :: passed, c, after)
      else some ([], curr, rest)

/-- One pass of the outer loop of `updateIndex`: unlink the first node without
references, with the three cases of the source. -/
def updateIndexStep (l : List Node) : Option (List Node) :=
  match walkToGarbage l with
  | none => none
  | some (passed, _, after) =>
      match l with
      | [_] => some []
      | _ => if passed = [] then some after else some (passed ++ after)

/-- The outer loop `while(garbageExists() == 1)` of `updateIndex`, bounded by `fuel`
passes; `none` when the fuel is used up or a pass fails. -/
def updateIndexLoop : Nat → List Node → Option (List Node)
  | 0, _ => none
  | fuel + 1, l =>
      if garbageExists l = 1 then
        match updateIndexStep l with
        | none => none
        | some l' => updateIndexLoop fuel l'
      else some l

/-- The function `updateIndex` on a list: each pass unlinks a node, so one pass per node
and a final test are enough fuel. -/
def updateIndexList (l : List Node) : Option (List Node) :=
  updateIndexLoop (l.length + 1) l

/-- The function `updateIndex` on the pool. -/
def updateIndex (s : Pool) : Option Pool :=
  match updateIndexList s.indexing with
  | none => none
  | some l => some { s with indexing := l }

/-- The loop of `findNode`: the first node whose id is `ref`. -/
def findNodeLoop (ref : Ref) : List Node → Option Node
  | [] => none
  | curr :: rest => if curr.objReferenceID ≠ ref then findNodeLoop ref rest else some curr

/-- The function `findNode`. -/
def findNode (ref : Ref) (l : List Node) : Option Node :=
  if ref ≠ NULL_REF then findNodeLoop ref l else none

/-- A write through the pointer returned by `findNode`: the first node whose id is
`ref` is replaced by `f` of it, in place. -/
def updateTarget (ref : Ref) (f : Node → Node) : List Node → List Node
  | [] => []
  | curr :: rest =>
      if curr.objReferenceID ≠ ref then curr :: updateTarget ref f rest else f curr :: rest

/-! ## The compactor -/

/-- The byte loop of `copyActToNonact`,
`for(i = start; i < start + size; i++) { inactive[sizeTracker] = active[i]; sizeTracker++; }`,
with `count` passes left. -/
def copyBytes (MEMORY_SIZE : Nat) (act : Option Buffer) :
    Nat → Int → Option Buffer → Int → Option (Option Buffer × Int)
  | 0, _, inact, sizeTracker => some (inact, sizeTracker)
  | count + 1, i, inact, sizeTracker =>
      match readByte MEMORY_SIZE act i with
      | none => none
      | some v =>
          match writeByte MEMORY_SIZE inact sizeTracker v with
          | none => none
          | some inact' => copyBytes MEMORY_SIZE act count (i + 1) (some inact') (sizeTracker + 1)

/-- The node loop of `copyActToNonact` with its locals `newStartInd`, `sizeTracker` and
the three counters.  Returns the relinked nodes, the inactive buffer, the final
`sizeTracker` and the counters. -/
def copyLoop (MEMORY_SIZE : Nat) (act : Option Buffer) :
    List Node → Option Buffer → Int → Int → GcStats →
      Option (List Node × Option Buffer × Int × GcStats)
  | [], inact, _, sizeTracker, stats => some ([], inact, sizeTracker, stats)
  | curr :: rest, inact, newStartInd, sizeTracker, stats =>
      if curr.objReferenceCount ≠ 0 then
        match copyBytes MEMORY_SIZE act curr.memSize curr.memStartIndex inact sizeTracker with
        | none => none
        | some (inact', sizeTracker') =>
            match copyLoop MEMORY_SIZE act rest inact' (newStartInd + (curr.memSize : Int))
                sizeTracker'
                { stats with numObjects := stats.numObjects + 1,
                             numBytes := stats.numBytes + curr.memSize } with
            | none => none
            | some (rest', b, t, st) =>
                some ({ curr with memStartIndex := newStartInd } :: rest', b, t, st)
      else
        match copyLoop MEMORY_SIZE act rest inact newStartInd sizeTracker
            { stats with numBytesCollected := stats.numBytesCollected + curr.memSize } with
        | none => none
        | some (rest', b, t, st) => some (curr :: rest', b, t, st)

/-- The function `copyActToNonact`: returns the new pool and the printed statistics. -/
def copyActToNonact (MEMORY_SIZE : Nat) (s : Pool) : Option (Pool × GcStats) :=
  match copyLoop MEMORY_SIZE s.activeBuffer s.indexing s.inactiveBuffer 0 0
      { numObjects := 0, numBytes := 0, numBytesCollected := 0 } with
  | none => none
  | some (l, inact, sizeTracker, stats) =>
      some ({ s with indexing := l, inactiveBuffer := inact,
                     nextAvailableIndex := sizeTracker }, stats)

/-- The function `swapBuffers`. -/
def swapBuffers (s : Pool) : Pool :=
  { s with activeBuffer := s.inactiveBuffer, inactiveBuffer := s.activeBuffer }

/-- The function `compact`: copy, swap, prune. -/
def compact (MEMORY_SIZE : Nat) (s : Pool) : Option Pool :=
  match copyActToNonact MEMORY_SIZE s with
  | none => none
  | some (s1, _) => updateIndex (swapBuffers s1)

/-! ## The public interface -/

/-- The function `initPool`; `fresh1` and `fresh2` are the contents of the two blocks
`malloc` hands back. -/
def initPool (fresh1 fresh2 : Buffer) (s : Pool) : Pool :=
  if s.numObjMngrs = 0 then
    { numObjMngrs := s.numObjMngrs + 1, activeBuffer := some fresh1,
      inactiveBuffer := some fresh2, referenceID := 1, nextAvailableIndex := 0,
      indexing := [] }
  else s

/-- The function `destroyPool`: both blocks are freed and set to `NULL`, every node and
the index are freed. -/
def destroyPool (s : Pool) : Pool :=
  if s.numObjMngrs ≠ 0 then
    { s with numObjMngrs := s.numObjMngrs - 1, activeBuffer := none,
             inactiveBuffer := none, indexing := [] }
  else s

/-- The allocation done in both branches of `insertObject`:
`returnRef = referenceID; insertAtEnd(makeNode(size))`. -/
def allocateNode (size : Nat) (s : Pool) : Ref × Pool :=
  (s.referenceID, insertAtEnd (makeNode size s).1 (makeNode size s).2)

/-- The function `insertObject`. -/
def insertObject (MEMORY_SIZE : Nat) (size : Nat) (s : Pool) : Option (Ref × Pool) :=
  if s.numObjMngrs ≠ 0 then
    if 0 < size ∧ size ≤ MEMORY_SIZE then
      if (size : Int) ≤ (MEMORY_SIZE : Int) - s.nextAvailableIndex then
        some (allocateNode size s)
      else
        match compact MEMORY_SIZE s with
        | none => none
        | some s1 =>
            if (size : Int) ≤ (MEMORY_SIZE : Int) - s1.nextAvailableIndex then
              some (allocateNode size s1)
            else some (NULL_REF, s1)
    else some (NULL_REF, s)
  else some (NULL_REF, s)

/-- The function `retrieveObject`: the result is the subscript `k` of the returned
pointer `&activeBuffer[k]`, `none` for `NULL`. -/
def retrieveObject (ref : Ref) (s : Pool) : Option Int :=
  if s.numObjMngrs ≠ 0 then
    if ref ≠ NULL_REF then
      match findNode ref s.indexing with
      | none => none
      | some target =>
          if target.objReferenceCount ≠ 0 then some target.memStartIndex else none
    else none
  else none

/-- The function `addReference`: `targetObj->objReferenceCount++` on the first record
with the id, when that record has references. -/
def addReference (ref : Ref) (s : Pool) : Pool :=
  if s.numObjMngrs ≠ 0 then
    if ref ≠ NULL_REF then
      match findNode ref s.indexing with
      | none => s
      | some targetObj =>
          if targetObj.objReferenceCount ≠ 0 then
            { s with indexing :=
                (updateTarget ref
                  (fun n => { n with objReferenceCount := incrementInt n.objReferenceCount })
                  s.indexing) }
          else s
    else s
  else s

/-- The function `dropReference`: `targetObj->objReferenceCount--` on the first record
with the id, when that record has references. -/
def dropReference (ref : Ref) (s : Pool) : Pool :=
  if s.numObjMngrs ≠ 0 then
    if ref ≠ NULL_REF then
      match findNode ref s.indexing with
      | none => s
      | some targetObj =>
          if targetObj.objReferenceCount ≠ 0 then
            { s with indexing :=
                (updateTarget ref
                  (fun n => { n with objReferenceCount := decrementInt n.objReferenceCount })
                  s.indexing) }
          else s
    else s
  else s

/-- One block of lines printed by `dumpPool` for a record: the running number, the
start index, the id, the size and the reference count.  The printed address is
`&activeBuffer[memStartIndex]` and carries no further information. -/
structure DumpEntry where
  counter : Int
  memStartIndex : Int
  objReferenceID : Ref
  memSize : Nat
  objReferenceCount : Int
deriving DecidableEq, Repr

/-- What `dumpPool` prints: the blocks of the records, or the message that no object
manager is initialised. -/
inductive DumpReport where
  | entries (es : List DumpEntry)
  | notInitialised
deriving DecidableEq, Repr

/-- The loop of `dumpPool` with its local `counter`. -/
def dumpLoop : List Node → Int → List DumpEntry
  | [], _ => []
  | curr :: rest, counter =>
      if curr.objReferenceCount ≠ 0 then
        { counter := counter, memStartIndex := curr.memStartIndex,
          objReferenceID := curr.objReferenceID, memSize := curr.memSize,
          objReferenceCount := curr.objReferenceCount } :: dumpLoop rest (counter + 1)
      else dumpLoop rest counter

/-- The function `dumpPool`: it only prints, the pool is not written. -/
def dumpPool (s : Pool) : DumpReport :=
  if s.numObjMngrs ≠ 0 then DumpReport.entries (dumpLoop s.indexing 1)
  else DumpReport.notInitialised

/-! ## Vocabulary of the properties -/

/-- A node that still has references (`objReferenceCount != 0`, the test of the source). -/
def isLive (n : Node) : Bool := decide (n.objReferenceCount ≠ 0)

/-- The nodes the compactor keeps. -/
def liveNodes (l : List Node) : List Node := l.filter isLive

/-- The sum of the sizes of the nodes of a list. -/
def totalSize : List Node → Nat
  | [] => 0
  | n :: rest => n.memSize + totalSize rest

/-- The sum of the sizes of the nodes with references. -/
def liveBytes (l : List Node) : Nat := totalSize (liveNodes l)

/-- The sum of the sizes of the nodes without references. -/
def deadBytes (l : List Node) : Nat := totalSize (l.filter (fun n => !isLive n))

/-- The counters `copyActToNonact` holds after walking the list `l`, starting from
`stats`. -/
def statsAfter (stats : GcStats) (l : List Node) : GcStats :=
  { numObjects := stats.numObjects + ((liveNodes l).length : Int),
    numBytes := stats.numBytes + liveBytes l,
    numBytesCollected := stats.numBytesCollected + deadBytes l }

/-- The ids of the nodes, in list order. -/
def handles (l : List Node) : List Ref := l.map (fun n => n.objReferenceID)

/-- The nodes lie back to back from offset `off`: each starts where the one before it
ends. -/
def tiledFrom : Int → List Node → Prop
  | _, [] => True
  | off, n :: rest => n.memStartIndex = off ∧ tiledFrom (off + (n.memSize : Int)) rest

/-- The new offsets the node loop of `copyActToNonact` hands out, starting at `off`:
a node with references moves to the running offset, a node without keeps its own. -/
def relocate : Int → List Node → List Node
  | _, [] => []
  | off, n :: rest =>
      if n.objReferenceCount ≠ 0 then
        { n with memStartIndex := off } :: relocate (off + (n.memSize : Int)) rest
      else n :: relocate off rest

/-! ## Sequences of calls and the pool invariant -/

/-- The calls a client makes between `initPool` and `destroyPool`. -/
inductive Call where
  | insert (size : Nat)
  | add (ref : Ref)
  | drop (ref : Ref)
  | retrieve (ref : Ref)
deriving DecidableEq, Repr

/-- One call: the pool it leaves and, for `insertObject`, the reference it returns.
`retrieveObject` only reads the pool. -/
def runCall (MEMORY_SIZE : Nat) : Call → Pool → Option (Option Ref × Pool)
  | Call.insert size, s =>
      match insertObject MEMORY_SIZE size s with
      | none => none
      | some (r, s1) => some (some r, s1)
  | Call.add ref, s => some (none, addReference ref s)
  | Call.drop ref, s => some (none, dropReference ref s)
  | Call.retrieve _, s => some (none, s)

/-- A sequence of calls: the references returned by its `insertObject` calls, in call
order, and the final pool. -/
def runCalls (MEMORY_SIZE : Nat) : List Call → Pool → Option (List Ref × Pool)
  | [], s => some ([], s)
  | c :: rest, s =>
      match runCall MEMORY_SIZE c s with
      | none => none
      | some (r, s1) =>
          match runCalls MEMORY_SIZE rest s1 with
          | none => none
          | some (rs, s2) => some (r.toList ++ rs, s2)

/-- The references of the allocations that succeeded. -/
def successes (rs : List Ref) : List Ref := rs.filter (fun r => decide (r ≠ NULL_REF))

/-- The invariant of an initialised pool: both buffers exist, the records tile
`[0, nextAvailableIndex)` in index order and fit in a buffer, sizes are positive, ids
are positive, below `referenceID` and increasing along the index. -/
structure Inv (MEMORY_SIZE : Nat) (s : Pool) : Prop where
  init : s.numObjMngrs = 1
  act : ∃ a, s.activeBuffer = some a
  inact : ∃ b, s.inactiveBuffer = some b
  tiled : tiledFrom 0 s.indexing
  cursor : s.nextAvailableIndex = (totalSize s.indexing : Int)
  fits : totalSize s.indexing ≤ MEMORY_SIZE
  sizes : ∀ n ∈ s.indexing, 0 < n.memSize
  ids : ∀ n ∈ s.indexing, 0 < n.objReferenceID ∧ n.objReferenceID < s.referenceID
  sorted : (handles s.indexing).Pairwise (fun x y => x < y)
  counter : 0 < s.referenceID

/-- The copy phase of the compactor stays inside the buffers: both buffers are allocated,
the range of every record with references lies in `[0, MEMORY_SIZE)` and the sizes of
those records sum to at most `MEMORY_SIZE`. -/
def copyInBounds (MEMORY_SIZE : Nat) (s : Pool) : Prop :=
  (∃ a, s.activeBuffer = some a) ∧ (∃ b, s.inactiveBuffer = some b) ∧
    (∀ n ∈ s.indexing, n.objReferenceCount ≠ 0 →
      0 ≤ n.memStartIndex ∧ n.memStartIndex + (n.memSize : Int) ≤ (MEMORY_SIZE : Int)) ∧
    liveBytes s.indexing ≤ MEMORY_SIZE

/-- Every function of the interface: `initPool` (with the contents of the two blocks
`malloc` hands back), `destroyPool`, `dumpPool`, and the four calls of `Call`. -/
inductive PublicCall where
  | init (fresh1 fresh2 : Buffer)
  | destroy
  | dump
  | call (c : Call)

/-- One call of the interface: the pool it leaves.  `dumpPool` only prints. -/
def runPublicCall (MEMORY_SIZE : Nat) : PublicCall → Pool → Option Pool
  | PublicCall.init fresh1 fresh2, s => some (initPool fresh1 fresh2 s)
  | PublicCall.destroy, s => some (destroyPool s)
  | PublicCall.dump, s => some s
  | PublicCall.call c, s =>
      match runCall MEMORY_SIZE c s with
      | none => none
      | some (_, s1) => some s1

/-- A sequence of calls of the interface: the final pool. -/
def runPublicCalls (MEMORY_SIZE : Nat) : List PublicCall → Pool → Option Pool
  | [], s => some s
  | c :: rest, s =>
      match runPublicCall MEMORY_SIZE c s with
      | none => none
      | some s1 => runPublicCalls MEMORY_SIZE rest s1

/-- The id `ref` is dead in the pool: every record that carries it has count 0. -/
def isDead (ref : Ref) (s : Pool) : Prop :=
  ∀ n ∈ s.indexing, n.objReferenceID = ref → n.objReferenceCount = 0

/-! ## Sample states -/

/-- A block whose bytes are all zero. -/
def zeroBuffer : Buffer := fun _ => 0

/-- A block holding the byte `k mod 256` at offset `k`. -/
def rampBuffer : Buffer := fun k => Fin.ofNat k.toNat

/-- An 8-byte pool with three objects, the middle one without references. -/
def samplePool : Pool :=
  { numObjMngrs := 1, activeBuffer := some rampBuffer, inactiveBuffer := some zeroBuffer,
    referenceID := 4, nextAvailableIndex := 7,
    indexing := [⟨0, 2, 1, 1⟩, ⟨2, 3, 0, 2⟩, ⟨5, 2, 2, 3⟩] }

/-- The pool with one object of `size` bytes, id 1 and reference count `c`, the buffers
being `fresh1` and `fresh2`: with `c = 1` the pool after `initPool` and one
`insertObject(size)`. -/
def singlePool (fresh1 fresh2 : Buffer) (size : Nat) (c : Int) : Pool :=
  { numObjMngrs := 1, activeBuffer := some fresh1, inactiveBuffer := some fresh2,
    referenceID := 2, nextAvailableIndex := (size : Int),
    indexing := [⟨0, size, c, 1⟩] }

/-- The calls `insertObject(size)` followed by `N` calls `addReference(1)`. -/
def insertThenAdd (size : Nat) (N : Nat) : List Call :=
  Call.insert size :: List.replicate N (Call.add 1)

/-! ## Properties of the index operations -/

theorem insertAtEndList_eq (aNode : Node) (l : List Node) :
    insertAtEndList aNode l = l ++ [aNode] := by
  induction l with
  | nil => rfl
  | cons c r ih => simp [insertAtEndList, ih]

theorem garbageExistsLoop_one (l : List Node) : garbageExistsLoop l 1 = 1 := by
  cases l <;> simp [garbageExistsLoop]

theorem garbageExists_cons (c : Node) (r : List Node) :
    garbageExists (c :: r) = if c.objReferenceCount = 0 then 1 else garbageExists r := by
  unfold garbageExists
  by_cases h : c.objReferenceCount = 0
  · simp [garbageExistsLoop, h, garbageExistsLoop_one]
  · simp [garbageExistsLoop, h]

theorem garbageExists_eq_one_iff (l : List Node) :
    garbageExists l = 1 ↔ ∃ n ∈ l, n.objReferenceCount = 0 := by
  induction l with
  | nil => simp [garbageExists, garbageExistsLoop]
  | cons c r ih =>
    rw [garbageExists_cons]
    by_cases h : c.objReferenceCount = 0
    · simp [h]
    · simp [h, ih]

theorem garbageExists_zero_or_one (l : List Node) :
    garbageExists l = 0 ∨ garbageExists l = 1 := by
  induction l with
  | nil => left; rfl
  | cons c r ih =>
    rw [garbageExists_cons]
    by_cases h : c.objReferenceCount = 0
    · simp [h]
    · simpa [h] using ih

theorem liveNodes_eq_self_of_no_garbage (l : List Node)
    (h : ¬ garbageExists l = 1) : liveNodes l = l := by
  rw [garbageExists_eq_one_iff] at h
  unfold liveNodes
  rw [List.filter_eq_self]
  intro n hn
  have : n.objReferenceCount ≠ 0 := fun h0 => h ⟨n, hn, h0⟩
  simp [isLive, this]

theorem walkToGarbage_spec (l : List Node) (h : ∃ n ∈ l, n.objReferenceCount = 0) :
    ∃ passed c after, walkToGarbage l = some (passed, c, after) ∧
      l = passed ++ c :: after ∧ (∀ n ∈ passed, n.objReferenceCount ≠ 0) ∧
      c.objReferenceCount = 0 := by
  induction l with
  | nil => simp at h
  | cons x r ih =>
    by_cases hx : x.objReferenceCount = 0
    · exact ⟨[], x, r, by simp [walkToGarbage, hx], rfl, by simp, hx⟩
    · have hr : ∃ n ∈ r, n.objReferenceCount = 0 := by
        obtain ⟨n, hn, h0⟩ := h
        rcases List.mem_cons.1 hn with rfl | hn
        · exact absurd h0 hx
        · exact ⟨n, hn, h0⟩
      obtain ⟨p, c, a, hw, hl, hp, hc⟩ := ih hr
      refine ⟨x :: p, c, a, by simp [walkToGarbage, hx, hw], by simp [hl], ?_, hc⟩
      intro n hn
      rcases List.mem_cons.1 hn with rfl | hn
      · exact hx
      · exact hp n hn

theorem updateIndexStep_spec (l : List Node) (h : ∃ n ∈ l, n.objReferenceCount = 0) :
    ∃ passed c after, updateIndexStep l = some (passed ++ after) ∧
      l = passed ++ c :: after ∧ (∀ n ∈ passed, n.objReferenceCount ≠ 0) ∧
      c.objReferenceCount = 0 := by
  obtain ⟨p, c, a, hw, hl, hp, hc⟩ := walkToGarbage_spec l h
  refine ⟨p, c, a, ?_, hl, hp, hc⟩
  unfold updateIndexStep
  rw [hw]
  cases p with
  | nil =>
    cases a with
    | nil => subst hl; simp
    | cons a1 a2 => subst hl; simp
  | cons p1 p2 => subst hl; simp

theorem liveNodes_append (l1 l2 : List Node) :
    liveNodes (l1 ++ l2) = liveNodes l1 ++ liveNodes l2 := by
  simp [liveNodes]

theorem liveNodes_of_all_live (l : List Node) (h : ∀ n ∈ l, n.objReferenceCount ≠ 0) :
    liveNodes l = l := by
  unfold liveNodes
  rw [List.filter_eq_self]
  intro n hn
  simp [isLive, h n hn]

theorem updateIndexLoop_eq (fuel : Nat) (l : List Node)
    (h : (l.filter (fun n => !isLive n)).length < fuel) :
    updateIndexLoop fuel l = some (liveNodes l) := by
  induction fuel generalizing l with
  | zero => omega
  | succ k ih =>
    unfold updateIndexLoop
    by_cases hg : garbageExists l = 1
    · rw [if_pos hg]
      obtain ⟨p, c, a, hs, hl, hp, hc⟩ :=
        updateIndexStep_spec l ((garbageExists_eq_one_iff l).1 hg)
      rw [hs]
      have hpn : p.filter (fun n => !isLive n) = [] := by
        rw [List.filter_eq_nil_iff]
        intro n hn
        simp [isLive, hp n hn]
      have hcl : isLive c = false := by simp [isLive, hc]
      have hlen : ((p ++ a).filter (fun n => !isLive n)).length < k := by
        rw [hl] at h
        simp [List.filter_append, List.filter_cons, hcl, hpn] at h ⊢
        omega
      simp only []
      rw [ih (p ++ a) hlen, hl]
      simp [liveNodes, List.filter_append, List.filter_cons, hcl]
    · rw [if_neg hg, liveNodes_eq_self_of_no_garbage l hg]

theorem updateIndexList_eq (l : List Node) : updateIndexList l = some (liveNodes l) := by
  unfold updateIndexList
  apply updateIndexLoop_eq
  have := List.length_filter_le (fun n => !isLive n) l
  omega

theorem updateIndex_eq (s : Pool) :
    updateIndex s = some { s with indexing := liveNodes s.indexing } := by
  simp [updateIndex, updateIndexList_eq]

/-! ## Properties of the copy phase -/

theorem liveBytes_cons_live (n : Node) (r : List Node) (h : n.objReferenceCount ≠ 0) :
    liveBytes (n :: r) = n.memSize + liveBytes r := by
  simp [liveBytes, liveNodes, isLive, h, totalSize]

theorem liveBytes_cons_dead (n : Node) (r : List Node) (h : n.objReferenceCount = 0) :
    liveBytes (n :: r) = liveBytes r := by
  simp [liveBytes, liveNodes, isLive, h]

theorem copyBytes_spec (C : Nat) (a : Buffer) (k : Nat) :
    ∀ (i : Int) (b : Buffer) (t : Int), 0 ≤ i → i + (k : Int) ≤ (C : Int) → 0 ≤ t →
      t + (k : Int) ≤ (C : Int) →
      ∃ b', copyBytes C (some a) k i (some b) t = some (some b', t + (k : Int)) ∧
        (∀ j : Nat, j < k → b' (t + (j : Int)) = a (i + (j : Int))) ∧
        (∀ x : Int, x < t ∨ t + (k : Int) ≤ x → b' x = b x) := by
  induction k with
  | zero =>
    intro i b t _ _ _ _
    exact ⟨b, by simp [copyBytes], by simp, by simp⟩
  | succ k ih =>
    intro i b t hi hik ht htk
    have hi' : 0 ≤ i ∧ i < (C : Int) := ⟨hi, by push_cast at hik; omega⟩
    have ht' : 0 ≤ t ∧ t < (C : Int) := ⟨ht, by push_cast at htk; omega⟩
    obtain ⟨b', hb', hcopy, hframe⟩ := ih (i + 1) (Function.update b t (a i)) (t + 1)
      (by omega) (by push_cast at hik; omega) (by omega) (by push_cast at htk; omega)
    refine ⟨b', ?_, ?_, ?_⟩
    · simp only [copyBytes, readByte, writeByte, if_pos hi', if_pos ht', hb']
      congr 2
      push_cast
      ring_nf
    · intro j hj
      cases j with
      | zero =>
        have := hframe t (Or.inl (by omega))
        simp [this]
      | succ j =>
        have := hcopy j (by omega)
        push_cast
        rw [show t + ((j : Int) + 1) = t + 1 + (j : Int) by ring,
          show i + ((j : Int) + 1) = i + 1 + (j : Int) by ring]
        exact this
    · intro x hx
      have hne : x ≠ t := by push_cast at hx; omega
      rw [hframe x (by push_cast at hx; omega), Function.update_noteq hne]

theorem deadBytes_cons_live (n : Node) (r : List Node) (h : n.objReferenceCount ≠ 0) :
    deadBytes (n :: r) = deadBytes r := by
  simp [deadBytes, isLive, h]

theorem deadBytes_cons_dead (n : Node) (r : List Node) (h : n.objReferenceCount = 0) :
    deadBytes (n :: r) = n.memSize + deadBytes r := by
  simp [deadBytes, isLive, h, totalSize]

theorem liveNodes_cons_live (n : Node) (r : List Node) (h : n.objReferenceCount ≠ 0) :
    liveNodes (n :: r) = n :: liveNodes r := by
  simp [liveNodes, isLive, h]

theorem liveNodes_cons_dead (n : Node) (r : List Node) (h : n.objReferenceCount = 0) :
    liveNodes (n :: r) = liveNodes r := by
  simp [liveNodes, isLive, h]

theorem statsAfter_cons_live (stats : GcStats) (n : Node) (r : List Node)
    (h : n.objReferenceCount ≠ 0) :
    statsAfter { stats with numObjects := stats.numObjects + 1,
                            numBytes := stats.numBytes + n.memSize } r =
      statsAfter stats (n :: r) := by
  simp only [statsAfter, liveNodes_cons_live n r h, liveBytes_cons_live n r h,
    deadBytes_cons_live n r h, List.length_cons, GcStats.mk.injEq]
  refine ⟨?_, ?_, trivial⟩
  · push_cast; ring
  · ring

theorem statsAfter_cons_dead (stats : GcStats) (n : Node) (r : List Node)
    (h : n.objReferenceCount = 0) :
    statsAfter { stats with numBytesCollected := stats.numBytesCollected + n.memSize } r =
      statsAfter stats (n :: r) := by
  simp only [statsAfter, liveNodes_cons_dead n r h, liveBytes_cons_dead n r h,
    deadBytes_cons_dead n r h, GcStats.mk.injEq]
  refine ⟨trivial, trivial, ?_⟩
  ring

/-- The copy phase on a list whose live ranges can be read and whose live bytes fit
behind the write position: it succeeds, renumbers the nodes as `relocate` does, leaves
the target untouched below the write position and places every live node's bytes at
its new offset. -/
theorem copyLoop_spec (C : Nat) (a : Buffer) (l : List Node) :
    ∀ (b : Buffer) (t : Int) (stats : GcStats), 0 ≤ t →
      (∀ n ∈ l, n.objReferenceCount ≠ 0 →
        0 ≤ n.memStartIndex ∧ n.memStartIndex + (n.memSize : Int) ≤ (C : Int)) →
      t + (liveBytes l : Int) ≤ (C : Int) →
      ∃ b', copyLoop C (some a) l (some b) t t stats =
          some (relocate t l, some b', t + (liveBytes l : Int), statsAfter stats l) ∧
        (∀ x : Int, x < t → b' x = b x) ∧
        List.Forall₂ (fun n n' => n.objReferenceCount ≠ 0 →
          ∀ j : Nat, j < n.memSize →
            b' (n'.memStartIndex + (j : Int)) = a (n.memStartIndex + (j : Int)))
          l (relocate t l) := by
  induction l with
  | nil =>
    intro b t stats _ _ _
    refine ⟨b, ?_, fun _ _ => rfl, List.Forall₂.nil⟩
    simp [copyLoop, relocate, liveBytes, liveNodes, totalSize, statsAfter, deadBytes]
  | cons c r ih =>
    intro b t stats ht hr hfit
    by_cases hc : c.objReferenceCount = 0
    · rw [liveBytes_cons_dead c r hc] at hfit
      obtain ⟨b', hb', hframe, hbytes⟩ := ih b t
        { stats with numBytesCollected := stats.numBytesCollected + c.memSize } ht
        (fun n hn => hr n (List.mem_cons_of_mem _ hn)) hfit
      refine ⟨b', ?_, hframe, ?_⟩
      · simp only [copyLoop, hc, ne_eq, not_true_eq_false, if_false, hb', relocate,
          liveBytes_cons_dead c r hc, statsAfter_cons_dead stats c r hc]
      · simp only [relocate, hc, ne_eq, not_true_eq_false, if_false]
        exact List.Forall₂.cons (fun h => absurd hc h) hbytes
    · rw [liveBytes_cons_live c r hc] at hfit
      push_cast at hfit
      obtain ⟨hs0, hs1⟩ := hr c (List.mem_cons_self _ _) hc
      obtain ⟨b1, hb1, hcopy1, hframe1⟩ := copyBytes_spec C a c.memSize c.memStartIndex b t
        hs0 hs1 ht (by omega)
      obtain ⟨b', hb', hframe, hbytes⟩ := ih b1 (t + (c.memSize : Int))
        { stats with numObjects := stats.numObjects + 1,
                     numBytes := stats.numBytes + c.memSize } (by omega)
        (fun n hn => hr n (List.mem_cons_of_mem _ hn)) (by omega)
      refine ⟨b', ?_, ?_, ?_⟩
      · simp only [copyLoop, hc, ne_eq, not_false_eq_true, if_true, hb1, hb', relocate,
          liveBytes_cons_live c r hc, statsAfter_cons_live stats c r hc]
        congr 3
        push_cast
        ring_nf
      · intro x hx
        rw [hframe x (by omega), hframe1 x (Or.inl hx)]
      · simp only [relocate, hc, ne_eq, not_false_eq_true, if_true]
        refine List.Forall₂.cons ?_ hbytes
        intro _ j hj
        show b' (t + (j : Int)) = a (c.memStartIndex + (j : Int))
        rw [hframe (t + (j : Int)) (by omega), hcopy1 j hj]

/-! ## Properties of `relocate` -/

theorem forall₂_mem_left {R : Node → Node → Prop} {l l' : List Node}
    (h : List.Forall₂ R l l') : ∀ n ∈ l, ∃ n' ∈ l', R n n' := by
  induction h with
  | nil => intro n hn; simp at hn
  | cons hab _ ih =>
    intro n hn
    rcases List.mem_cons.1 hn with rfl | hn
    · exact ⟨_, List.mem_cons_self _ _, hab⟩
    · obtain ⟨n', hn', hr⟩ := ih n hn
      exact ⟨n', List.mem_cons_of_mem _ hn', hr⟩

theorem forall₂_both {R S : Node → Node → Prop} {l l' : List Node}
    (h : List.Forall₂ R l l') (h2 : List.Forall₂ S l l') :
    List.Forall₂ (fun n n' => R n n' ∧ S n n') l l' := by
  induction h with
  | nil => exact List.Forall₂.nil
  | cons hab _ ih =>
    cases h2 with
    | cons hs hrest => exact List.Forall₂.cons ⟨hab, hs⟩ (ih hrest)

theorem relocate_fields (l : List Node) : ∀ t : Int,
    List.Forall₂ (fun n n' => n'.objReferenceID = n.objReferenceID ∧
      n'.memSize = n.memSize ∧ n'.objReferenceCount = n.objReferenceCount)
      l (relocate t l) := by
  induction l with
  | nil => intro t; exact List.Forall₂.nil
  | cons c r ih =>
    intro t
    by_cases hc : c.objReferenceCount = 0
    · simp only [relocate, hc, ne_eq, not_true_eq_false, if_false]
      exact List.Forall₂.cons ⟨rfl, rfl, rfl⟩ (ih t)
    · simp only [relocate, hc, ne_eq, not_false_eq_true, if_true]
      exact List.Forall₂.cons ⟨rfl, rfl, rfl⟩ (ih _)

theorem liveNodes_relocate_handles (l : List Node) : ∀ t : Int,
    handles (liveNodes (relocate t l)) = handles (liveNodes l) := by
  induction l with
  | nil => intro t; rfl
  | cons c r ih =>
    intro t
    by_cases hc : c.objReferenceCount = 0
    · simp only [relocate, hc, ne_eq, not_true_eq_false, if_false]
      rw [liveNodes_cons_dead c _ hc, liveNodes_cons_dead c _ hc, ih]
    · simp only [relocate, hc, ne_eq, not_false_eq_true, if_true]
      rw [liveNodes_cons_live _ _ (by simpa using hc), liveNodes_cons_live c _ hc]
      simp only [handles, List.map_cons, List.cons.injEq, true_and]
      exact ih _

theorem liveNodes_relocate_totalSize (l : List Node) : ∀ t : Int,
    totalSize (liveNodes (relocate t l)) = liveBytes l := by
  induction l with
  | nil => intro t; rfl
  | cons c r ih =>
    intro t
    by_cases hc : c.objReferenceCount = 0
    · simp only [relocate, hc, ne_eq, not_true_eq_false, if_false]
      rw [liveNodes_cons_dead c _ hc, liveBytes_cons_dead c _ hc, ih]
    · simp only [relocate, hc, ne_eq, not_false_eq_true, if_true]
      rw [liveNodes_cons_live _ _ (by simpa using hc), liveBytes_cons_live c _ hc]
      simp only [totalSize]
      rw [ih]

theorem liveNodes_relocate_tiled (l : List Node) : ∀ t : Int,
    tiledFrom t (liveNodes (relocate t l)) := by
  induction l with
  | nil => intro t; trivial
  | cons c r ih =>
    intro t
    by_cases hc : c.objReferenceCount = 0
    · simp only [relocate, hc, ne_eq, not_true_eq_false, if_false]
      rw [liveNodes_cons_dead c _ hc]
      exact ih t
    · simp only [relocate, hc, ne_eq, not_false_eq_true, if_true]
      rw [liveNodes_cons_live _ _ (by simpa using hc)]
      exact ⟨rfl, ih _⟩

theorem relocate_eq_self (l : List Node) : ∀ t : Int,
    (∀ n ∈ l, n.objReferenceCount ≠ 0) → tiledFrom t l → relocate t l = l := by
  induction l with
  | nil => intro t _ _; rfl
  | cons c r ih =>
    intro t hl ht
    have hc : c.objReferenceCount ≠ 0 := hl c (List.mem_cons_self _ _)
    obtain ⟨h1, h2⟩ := ht
    simp only [relocate, hc, ne_eq, not_false_eq_true, if_true]
    rw [ih _ (fun n hn => hl n (List.mem_cons_of_mem _ hn)) h2, ← h1]

theorem tiledFrom_get (l : List Node) : ∀ (t : Int), tiledFrom t l →
    ∀ (i : Nat) (h : i < l.length),
      (l.get ⟨i, h⟩).memStartIndex = t + (totalSize (l.take i) : Int) := by
  induction l with
  | nil => intro t _ i h; simp at h
  | cons c r ih =>
    intro t ht i h
    obtain ⟨h1, h2⟩ := ht
    cases i with
    | zero => simp [totalSize, h1]
    | succ i =>
      have := ih _ h2 i (by simpa using h)
      simp only [List.get_eq_getElem, List.getElem_cons_succ, List.take_succ_cons, totalSize]
        at this ⊢
      rw [this]
      push_cast
      ring

theorem totalSize_append (l1 l2 : List Node) :
    totalSize (l1 ++ l2) = totalSize l1 + totalSize l2 := by
  induction l1 with
  | nil => simp [totalSize]
  | cons c r ih => simp [totalSize, ih, Nat.add_assoc]

theorem tiledFrom_append (l1 l2 : List Node) : ∀ t : Int,
    tiledFrom t (l1 ++ l2) ↔ tiledFrom t l1 ∧ tiledFrom (t + (totalSize l1 : Int)) l2 := by
  induction l1 with
  | nil => intro t; simp [tiledFrom, totalSize]
  | cons c r ih =>
    intro t
    show (c.memStartIndex = t ∧ tiledFrom (t + (c.memSize : Int)) (r ++ l2)) ↔ _
    rw [ih]
    simp only [tiledFrom, totalSize, Nat.cast_add, add_assoc, and_assoc]

theorem tiledFrom_bounds (l : List Node) : ∀ t : Int, tiledFrom t l →
    ∀ n ∈ l, t ≤ n.memStartIndex ∧
      n.memStartIndex + (n.memSize : Int) ≤ t + (totalSize l : Int) := by
  induction l with
  | nil => intro t _ n hn; simp at hn
  | cons c r ih =>
    intro t ht n hn
    obtain ⟨h1, h2⟩ := ht
    simp only [totalSize]
    push_cast
    rcases List.mem_cons.1 hn with rfl | hn
    · omega
    · have := ih _ h2 n hn
      omega

theorem liveBytes_le_totalSize (l : List Node) : liveBytes l ≤ totalSize l := by
  induction l with
  | nil => simp [liveBytes, liveNodes]
  | cons c r ih =>
    by_cases hc : c.objReferenceCount = 0
    · rw [liveBytes_cons_dead c r hc]; simp only [totalSize]; omega
    · rw [liveBytes_cons_live c r hc]; simp only [totalSize]; omega

theorem forall₂_mem_right {R : Node → Node → Prop} {l l' : List Node}
    (h : List.Forall₂ R l l') : ∀ n' ∈ l', ∃ n ∈ l, R n n' := by
  induction h with
  | nil => intro n hn; simp at hn
  | cons hab _ ih =>
    intro n hn
    rcases List.mem_cons.1 hn with rfl | hn
    · exact ⟨_, List.mem_cons_self _ _, hab⟩
    · obtain ⟨n', hn', hr⟩ := ih n hn
      exact ⟨n', List.mem_cons_of_mem _ hn', hr⟩

theorem mem_liveNodes_relocate (l : List Node) (t : Int) (n' : Node)
    (h : n' ∈ liveNodes (relocate t l)) :
    ∃ n ∈ l, n'.objReferenceID = n.objReferenceID ∧ n'.memSize = n.memSize ∧
      n'.objReferenceCount = n.objReferenceCount := by
  unfold liveNodes at h
  rw [List.mem_filter] at h
  exact forall₂_mem_right (relocate_fields l t) n' h.1

theorem handles_liveNodes_sublist (l : List Node) :
    List.Sublist (handles (liveNodes l)) (handles l) := by
  unfold handles liveNodes
  exact List.Sublist.map _ (List.filter_sublist l)

/-! ## The compactor as a whole -/

/-- The state `compact` produces when both buffers are allocated, every live range can
be read from the active buffer and the live bytes fit in the inactive one. -/
theorem compact_spec (C : Nat) (s : Pool) (a b : Buffer)
    (hA : s.activeBuffer = some a) (hI : s.inactiveBuffer = some b)
    (hR : ∀ n ∈ s.indexing, n.objReferenceCount ≠ 0 →
      0 ≤ n.memStartIndex ∧ n.memStartIndex + (n.memSize : Int) ≤ (C : Int))
    (hT : liveBytes s.indexing ≤ C) :
    ∃ b', compact C s = some
        { s with activeBuffer := some b', inactiveBuffer := some a,
                 nextAvailableIndex := (liveBytes s.indexing : Int),
                 indexing := liveNodes (relocate 0 s.indexing) } ∧
      List.Forall₂ (fun n n' => n.objReferenceCount ≠ 0 →
          ∀ j : Nat, j < n.memSize →
            b' (n'.memStartIndex + (j : Int)) = a (n.memStartIndex + (j : Int)))
        s.indexing (relocate 0 s.indexing) := by
  obtain ⟨b', hb', _, hbytes⟩ := copyLoop_spec C a s.indexing b 0
    { numObjects := 0, numBytes := 0, numBytesCollected := 0 } (le_refl 0) hR
    (by simpa using hT)
  refine ⟨b', ?_, hbytes⟩
  simp [compact, copyActToNonact, hA, hI, hb', swapBuffers, updateIndex_eq]

theorem writeByte_eq_some (C : Nat) (inact : Option Buffer) (t : Int) (v : uchar)
    (b1 : Buffer) (h : writeByte C inact t v = some b1) :
    (∃ b, inact = some b) ∧ 0 ≤ t ∧ t < (C : Int) := by
  unfold writeByte at h
  cases inact with
  | none => cases h
  | some b =>
    by_cases hb : 0 ≤ t ∧ t < (C : Int)
    · exact ⟨⟨b, rfl⟩, hb⟩
    · simp only [if_neg hb] at h
      cases h

/-- Whenever the byte loop returns after copying at least one byte, the target buffer
was allocated and every write was inside it. -/
theorem copyBytes_success (C : Nat) (act : Option Buffer) (k : Nat) :
    ∀ (i : Int) (inact : Option Buffer) (t : Int) (res : Option Buffer × Int),
      copyBytes C act k i inact t = some res →
      res.2 = t + (k : Int) ∧ (k = 0 → res.1 = inact) ∧
        (0 < k → (∃ b, inact = some b) ∧ (∃ b1, res.1 = some b1) ∧ 0 ≤ t ∧
          t + (k : Int) ≤ (C : Int)) := by
  induction k with
  | zero =>
    intro i inact t res h
    simp only [copyBytes, Option.some.injEq] at h
    subst h
    simp
  | succ k ih =>
    intro i inact t res h
    simp only [copyBytes] at h
    cases hr : readByte C act i with
    | none => rw [hr] at h; cases h
    | some v =>
      rw [hr] at h
      simp only at h
      cases hw : writeByte C inact t v with
      | none => rw [hw] at h; cases h
      | some b1 =>
        rw [hw] at h
        simp only at h
        obtain ⟨hb, ht0, htC⟩ := writeByte_eq_some C inact t v b1 hw
        obtain ⟨h1, h2, h3⟩ := ih _ _ _ _ h
        refine ⟨by rw [h1]; push_cast; ring, by omega, fun _ => ⟨hb, ?_, ht0, ?_⟩⟩
        · rcases Nat.eq_zero_or_pos k with hk | hk
          · exact ⟨b1, h2 hk⟩
          · exact (h3 hk).2.1
        · rcases Nat.eq_zero_or_pos k with hk | hk
          · subst hk; push_cast; omega
          · have := (h3 hk).2.2.2
            push_cast at this ⊢
            omega

/-- Whenever the node loop returns after copying at least one byte, the inactive buffer
was allocated and the live bytes fitted behind the write position. -/
theorem copyLoop_success (C : Nat) (act : Option Buffer) (l : List Node) :
    ∀ (inact : Option Buffer) (nsi st : Int) (stats : GcStats)
      (res : List Node × Option Buffer × Int × GcStats),
      copyLoop C act l inact nsi st stats = some res → 0 < liveBytes l →
      (∃ b, inact = some b) ∧ st + (liveBytes l : Int) ≤ (C : Int) := by
  induction l with
  | nil =>
    intro inact nsi st stats res _ hpos
    simp [liveBytes, liveNodes, totalSize] at hpos
  | cons c r ih =>
    intro inact nsi st stats res h hpos
    by_cases hc : c.objReferenceCount = 0
    · simp only [copyLoop, hc, ne_eq, not_true_eq_false, if_false] at h
      rw [liveBytes_cons_dead c r hc] at hpos ⊢
      cases hrec : copyLoop C act r inact nsi st
          { stats with numBytesCollected := stats.numBytesCollected + c.memSize } with
      | none => rw [hrec] at h; cases h
      | some res1 => exact ih _ _ _ _ _ hrec hpos
    · simp only [copyLoop, hc, ne_eq, not_false_eq_true, if_true] at h
      rw [liveBytes_cons_live c r hc] at hpos ⊢
      cases hcb : copyBytes C act c.memSize c.memStartIndex inact st with
      | none => rw [hcb] at h; cases h
      | some cb =>
        rw [hcb] at h
        obtain ⟨inact1, st1⟩ := cb
        simp only at h
        obtain ⟨h1, h2, h3⟩ := copyBytes_success C act c.memSize _ _ _ _ hcb
        simp only at h1 h2 h3
        cases hrec : copyLoop C act r inact1 (nsi + (c.memSize : Int)) st1
            { stats with numObjects := stats.numObjects + 1,
                         numBytes := stats.numBytes + c.memSize } with
        | none => rw [hrec] at h; cases h
        | some res1 =>
          rcases Nat.eq_zero_or_pos (liveBytes r) with hr0 | hrpos
          · have hk : 0 < c.memSize := by omega
            obtain ⟨hb, _, _, hfit⟩ := h3 hk
            refine ⟨hb, ?_⟩
            rw [hr0]
            push_cast
            omega
          · obtain ⟨hb1, hfit1⟩ := ih _ _ _ _ _ hrec hrpos
            refine ⟨?_, by push_cast; omega⟩
            rcases Nat.eq_zero_or_pos c.memSize with hk | hk
            · rw [← h2 hk]; exact hb1
            · exact (h3 hk).1

theorem compact_success (C : Nat) (s s1 : Pool) (h : compact C s = some s1)
    (hpos : 0 < liveBytes s.indexing) :
    (∃ b, s.inactiveBuffer = some b) ∧ liveBytes s.indexing ≤ C := by
  unfold compact copyActToNonact at h
  cases hcl : copyLoop C s.activeBuffer s.indexing s.inactiveBuffer 0 0
      { numObjects := 0, numBytes := 0, numBytesCollected := 0 } with
  | none => rw [hcl] at h; cases h
  | some res =>
    obtain ⟨hb, hfit⟩ := copyLoop_success C _ _ _ _ _ _ _ hcl hpos
    exact ⟨hb, by omega⟩

theorem size_zero_of_liveBytes_zero (l : List Node) (h : liveBytes l = 0) :
    ∀ n ∈ l, n.objReferenceCount ≠ 0 → n.memSize = 0 := by
  induction l with
  | nil => intro n hn; simp at hn
  | cons c r ih =>
    intro n hn hlive
    by_cases hc : c.objReferenceCount = 0
    · rw [liveBytes_cons_dead c r hc] at h
      rcases List.mem_cons.1 hn with rfl | hn
      · exact absurd hc hlive
      · exact ih h n hn hlive
    · rw [liveBytes_cons_live c r hc] at h
      rcases List.mem_cons.1 hn with rfl | hn
      · omega
      · exact ih (by omega) n hn hlive

theorem copyLoop_index (C : Nat) (act : Option Buffer) (l : List Node) :
    ∀ (inact : Option Buffer) (nsi st : Int) (stats : GcStats)
      (res : List Node × Option Buffer × Int × GcStats),
      copyLoop C act l inact nsi st stats = some res → res.1 = relocate nsi l := by
  induction l with
  | nil =>
    intro inact nsi st stats res h
    simp only [copyLoop, Option.some.injEq] at h
    subst h
    rfl
  | cons c r ih =>
    intro inact nsi st stats res h
    by_cases hc : c.objReferenceCount = 0
    · simp only [copyLoop, hc, ne_eq, not_true_eq_false, if_false] at h
      cases hrec : copyLoop C act r inact nsi st
          { stats with numBytesCollected := stats.numBytesCollected + c.memSize } with
      | none => rw [hrec] at h; cases h
      | some res1 =>
        rw [hrec] at h
        obtain ⟨l1, b1, t1, st1⟩ := res1
        simp only [Option.some.injEq] at h
        subst h
        have := ih _ _ _ _ _ hrec
        simp only [relocate, hc, ne_eq, not_true_eq_false, if_false]
        simp only at this
        rw [this]
    · simp only [copyLoop, hc, ne_eq, not_false_eq_true, if_true] at h
      cases hcb : copyBytes C act c.memSize c.memStartIndex inact st with
      | none => rw [hcb] at h; cases h
      | some cb =>
        rw [hcb] at h
        obtain ⟨inact1, st1⟩ := cb
        simp only at h
        cases hrec : copyLoop C act r inact1 (nsi + (c.memSize : Int)) st1
            { stats with numObjects := stats.numObjects + 1,
                         numBytes := stats.numBytes + c.memSize } with
        | none => rw [hrec] at h; cases h
        | some res1 =>
          rw [hrec] at h
          obtain ⟨l1, b1, t1, st2⟩ := res1
          simp only [Option.some.injEq] at h
          subst h
          have := ih _ _ _ _ _ hrec
          simp only [relocate, hc, ne_eq, not_false_eq_true, if_true]
          simp only at this
          rw [this]

/-- Whenever `compact` returns, the index is the live part of the renumbered old index
and neither `referenceID` nor `numObjMngrs` has changed. -/
theorem compact_index (C : Nat) (s s1 : Pool) (h : compact C s = some s1) :
    s1.indexing = liveNodes (relocate 0 s.indexing) ∧ s1.referenceID = s.referenceID ∧
      s1.numObjMngrs = s.numObjMngrs := by
  unfold compact copyActToNonact at h
  cases hcl : copyLoop C s.activeBuffer s.indexing s.inactiveBuffer 0 0
      { numObjects := 0, numBytes := 0, numBytesCollected := 0 } with
  | none => rw [hcl] at h; cases h
  | some res =>
    rw [hcl] at h
    obtain ⟨l1, b1, t1, st1⟩ := res
    have hl1 := copyLoop_index C _ _ _ _ _ _ _ hcl
    simp only at hl1
    simp only [updateIndex_eq, swapBuffers, Option.some.injEq] at h
    subst h
    simp [hl1]

theorem compact_defined (C : Nat) (s : Pool) (h : copyInBounds C s) :
    ∃ s', compact C s = some s' := by
  obtain ⟨⟨a, hA⟩, ⟨b, hI⟩, hR, hT⟩ := h
  obtain ⟨b', hc, _⟩ := compact_spec C s a b hA hI hR hT
  exact ⟨_, hc⟩

theorem mem_liveNodes_relocate_bounds (l : List Node) (n' : Node)
    (h : n' ∈ liveNodes (relocate 0 l)) :
    0 ≤ n'.memStartIndex ∧ n'.memStartIndex + (n'.memSize : Int) ≤ (liveBytes l : Int) := by
  have := tiledFrom_bounds _ 0 (liveNodes_relocate_tiled l 0) n' h
  rw [liveNodes_relocate_totalSize] at this
  omega

/-- C1. Compaction preserves live data.  Take a pool whose record ranges all lie inside
the allocated active buffer.  `compact` returns whenever the inactive buffer is
allocated and the live bytes fit in it; and whenever `compact` returns, every record
that had a positive reference count is still in the index with the same id, size and
count, and each of its bytes is found in the new active buffer, at the same distance
from the record's new start offset as it was from the old one in the old active
buffer. -/
theorem compact_preserves_live_data (MEMORY_SIZE : Nat) (s : Pool) (a : Buffer)
    (hA : s.activeBuffer = some a)
    (hR : ∀ n ∈ s.indexing,
      0 ≤ n.memStartIndex ∧ n.memStartIndex + (n.memSize : Int) ≤ (MEMORY_SIZE : Int)) :
    (∀ b, s.inactiveBuffer = some b → liveBytes s.indexing ≤ MEMORY_SIZE →
      ∃ s', compact MEMORY_SIZE s = some s') ∧
    ∀ s', compact MEMORY_SIZE s = some s' →
      ∀ n ∈ s.indexing, 0 < n.objReferenceCount →
        ∃ n' ∈ s'.indexing, n'.objReferenceID = n.objReferenceID ∧
          n'.memSize = n.memSize ∧ n'.objReferenceCount = n.objReferenceCount ∧
          ∀ j : Nat, j < n.memSize →
            readByte MEMORY_SIZE s'.activeBuffer (n'.memStartIndex + (j : Int)) =
              some (a (n.memStartIndex + (j : Int))) := by
  constructor
  · intro b hI hT
    exact compact_defined MEMORY_SIZE s ⟨⟨a, hA⟩, ⟨b, hI⟩, fun n hn _ => hR n hn, hT⟩
  · intro s' hc n hn hpos
    have hne : n.objReferenceCount ≠ 0 := by omega
    obtain ⟨hidx, _, _⟩ := compact_index MEMORY_SIZE s s' hc
    rcases Nat.eq_zero_or_pos (liveBytes s.indexing) with h0 | hlb
    · obtain ⟨n', hn', hid, hsz, hrc⟩ :=
        forall₂_mem_left (relocate_fields s.indexing 0) n hn
      refine ⟨n', ?_, hid, hsz, hrc, ?_⟩
      · rw [hidx]
        unfold liveNodes
        rw [List.mem_filter]
        exact ⟨hn', by simp [isLive, hrc, hne]⟩
      · intro j hj
        have := size_zero_of_liveBytes_zero s.indexing h0 n hn hne
        omega
    · obtain ⟨⟨b, hI⟩, hT⟩ := compact_success MEMORY_SIZE s s' hc hlb
      obtain ⟨b', hspec, hbytes⟩ :=
        compact_spec MEMORY_SIZE s a b hA hI (fun n hn _ => hR n hn) hT
      have hs' : s' = _ := Option.some.inj (hc.symm.trans hspec)
      obtain ⟨n', hn', ⟨hid, hsz, hrc⟩, hb⟩ :=
        forall₂_mem_left (forall₂_both (relocate_fields s.indexing 0) hbytes) n hn
      have hlive : n' ∈ liveNodes (relocate 0 s.indexing) := by
        unfold liveNodes
        rw [List.mem_filter]
        exact ⟨hn', by simp [isLive, hrc, hne]⟩
      refine ⟨n', by rw [hidx]; exact hlive, hid, hsz, hrc, ?_⟩
      intro j hj
      have hbd := mem_liveNodes_relocate_bounds s.indexing n' hlive
      have hin : 0 ≤ n'.memStartIndex + (j : Int) ∧
          n'.memStartIndex + (j : Int) < (MEMORY_SIZE : Int) := by
        rw [hsz] at hbd
        omega
      rw [hs']
      simp only [readByte, if_pos hin, hb hne j hj]

/-- Witness for C1 on the 8-byte sample pool. -/
theorem compact_preserves_live_data_witness :
    (∀ b, samplePool.inactiveBuffer = some b → liveBytes samplePool.indexing ≤ 8 →
      ∃ s', compact 8 samplePool = some s') ∧
    ∀ s', compact 8 samplePool = some s' →
      ∀ n ∈ samplePool.indexing, 0 < n.objReferenceCount →
        ∃ n' ∈ s'.indexing, n'.objReferenceID = n.objReferenceID ∧
          n'.memSize = n.memSize ∧ n'.objReferenceCount = n.objReferenceCount ∧
          ∀ j : Nat, j < n.memSize →
            readByte 8 s'.activeBuffer (n'.memStartIndex + (j : Int)) =
              some (rampBuffer (n.memStartIndex + (j : Int))) :=
  compact_preserves_live_data 8 samplePool rampBuffer rfl (by decide)

theorem allocateNode_eq (size : Nat) (s : Pool) :
    allocateNode size s =
      (s.referenceID,
       { s with indexing := s.indexing ++ [⟨s.nextAvailableIndex, size, 1, s.referenceID⟩],
                nextAvailableIndex := s.nextAvailableIndex + (size : Int),
                referenceID := s.referenceID + 1 }) := by
  simp [allocateNode, makeNode, insertAtEnd, insertAtEndList_eq]

theorem insertObject_fast_path_eq (C : Nat) (size : Nat) (s : Pool)
    (hinit : s.numObjMngrs ≠ 0) (hpos : 0 < size) (hcap : size ≤ C)
    (hfit : (size : Int) ≤ (C : Int) - s.nextAvailableIndex) :
    insertObject C size s = some
      (s.referenceID,
       { s with indexing := s.indexing ++ [⟨s.nextAvailableIndex, size, 1, s.referenceID⟩],
                nextAvailableIndex := s.nextAvailableIndex + (size : Int),
                referenceID := s.referenceID + 1 }) := by
  unfold insertObject
  rw [if_pos hinit, if_pos ⟨hpos, hcap⟩, if_pos hfit, allocateNode_eq]

/-- C4. Fast-path allocation: on an initialised pool, a request with
`0 < size ≤ MEMORY_SIZE` and `size ≤ MEMORY_SIZE - nextAvailableIndex` returns the old
`referenceID`, appends one record (old cursor, `size`, count 1, old `referenceID`) at
the tail of the index, advances the cursor by `size` and `referenceID` by one, and
changes nothing else. -/
theorem insertObject_fast_path (MEMORY_SIZE : Nat) (size : Nat) (s : Pool)
    (hinit : s.numObjMngrs ≠ 0) (hpos : 0 < size) (hcap : size ≤ MEMORY_SIZE)
    (hfit : (size : Int) ≤ (MEMORY_SIZE : Int) - s.nextAvailableIndex) :
    insertObject MEMORY_SIZE size s = some
      (s.referenceID,
       { s with indexing := s.indexing ++ [⟨s.nextAvailableIndex, size, 1, s.referenceID⟩],
                nextAvailableIndex := s.nextAvailableIndex + (size : Int),
                referenceID := s.referenceID + 1 }) := by
  unfold insertObject
  rw [if_pos hinit, if_pos ⟨hpos, hcap⟩, if_pos hfit, allocateNode_eq]

/-- Witness for C4: a 1-byte request on the 8-byte sample pool, whose cursor is 7. -/
theorem insertObject_fast_path_witness :
    insertObject 8 1 samplePool = some
      (samplePool.referenceID,
       { samplePool with
           indexing := samplePool.indexing ++
             [⟨samplePool.nextAvailableIndex, 1, 1, samplePool.referenceID⟩],
           nextAvailableIndex := samplePool.nextAvailableIndex + ((1 : Nat) : Int),
           referenceID := samplePool.referenceID + 1 }) :=
  insertObject_fast_path 8 1 samplePool (by decide) (by decide) (by decide) (by decide)

theorem toUlong_neg_large (z : Int) (hneg : z < 0) (hlow : -(2 ^ 63 : Int) ≤ z) :
    2 ^ 63 ≤ toUlong z := by
  unfold toUlong
  omega

/-- C5. Capacity bound: a request of size 0, of a size above `MEMORY_SIZE`, or a
negative argument (which arrives as `toUlong z`, a value of at least `2 ^ 63`) returns
`NULL_REF` and leaves the whole pool as it was: index, cursor, `referenceID` and both
buffers.  The result does not depend on `compact`, which is not run. -/
theorem insertObject_rejects_bad_size (MEMORY_SIZE : Nat) (size : Nat) (s : Pool)
    (h : size = 0 ∨ MEMORY_SIZE < size ∨
      ∃ z : Int, z < 0 ∧ -(2 ^ 63 : Int) ≤ z ∧ MEMORY_SIZE < 2 ^ 63 ∧ size = toUlong z) :
    insertObject MEMORY_SIZE size s = some (NULL_REF, s) := by
  have hbad : ¬ (0 < size ∧ size ≤ MEMORY_SIZE) := by
    rcases h with h | h | ⟨z, hz, hl, hc, rfl⟩
    · omega
    · omega
    · have := toUlong_neg_large z hz hl
      omega
  unfold insertObject
  by_cases hinit : s.numObjMngrs ≠ 0
  · rw [if_pos hinit, if_neg hbad]
  · rw [if_neg hinit]

/-- Witness for C5: the call `insertObject(-10)` of the test suite, with
`MEMORY_SIZE = 524288`. -/
theorem insertObject_rejects_bad_size_witness :
    insertObject 524288 (toUlong (-10)) (initPool zeroBuffer zeroBuffer startState) =
      some (NULL_REF, initPool zeroBuffer zeroBuffer startState) :=
  insertObject_rejects_bad_size 524288 (toUlong (-10))
    (initPool zeroBuffer zeroBuffer startState)
    (Or.inr (Or.inr ⟨-10, by decide, by decide, by decide, rfl⟩))

/-- C6. Out of space after one retry.  Take an initialised pool and a request with
`0 < size ≤ MEMORY_SIZE` that does not fit behind the cursor.  `insertObject` runs
`compact` once (which returns whenever its copy phase stays inside the buffers) and
tests the capacity again in the state `s1` that `compact` produced: if the request
still does not fit, the result is `NULL_REF` and the pool is exactly `s1`; otherwise
the object is allocated in `s1` as on the fast path. -/
theorem insertObject_retry_once (MEMORY_SIZE : Nat) (size : Nat) (s : Pool)
    (hinit : s.numObjMngrs ≠ 0) (hpos : 0 < size) (hcap : size ≤ MEMORY_SIZE)
    (hfull : (MEMORY_SIZE : Int) - s.nextAvailableIndex < (size : Int)) :
    (copyInBounds MEMORY_SIZE s → ∃ s1, compact MEMORY_SIZE s = some s1) ∧
    ∀ s1, compact MEMORY_SIZE s = some s1 →
      ((MEMORY_SIZE : Int) - s1.nextAvailableIndex < (size : Int) →
        insertObject MEMORY_SIZE size s = some (NULL_REF, s1)) ∧
      ((size : Int) ≤ (MEMORY_SIZE : Int) - s1.nextAvailableIndex →
        insertObject MEMORY_SIZE size s = some
          (s1.referenceID,
           { s1 with
               indexing := s1.indexing ++ [⟨s1.nextAvailableIndex, size, 1, s1.referenceID⟩],
               nextAvailableIndex := s1.nextAvailableIndex + (size : Int),
               referenceID := s1.referenceID + 1 })) := by
  refine ⟨compact_defined MEMORY_SIZE s, ?_⟩
  intro s1 hc
  constructor
  · intro hstill
    unfold insertObject
    rw [if_pos hinit, if_pos ⟨hpos, hcap⟩, if_neg (not_le.2 hfull), hc]
    simp only []
    rw [if_neg (not_le.2 hstill)]
  · intro hnow
    unfold insertObject
    rw [if_pos hinit, if_pos ⟨hpos, hcap⟩, if_neg (not_le.2 hfull), hc]
    simp only []
    rw [if_pos hnow, allocateNode_eq]

/-- Witness for C6: a 3-byte request on the 8-byte sample pool, whose cursor is 7. -/
theorem insertObject_retry_once_witness :
    (copyInBounds 8 samplePool → ∃ s1, compact 8 samplePool = some s1) ∧
    ∀ s1, compact 8 samplePool = some s1 →
      (((8 : Nat) : Int) - s1.nextAvailableIndex < ((3 : Nat) : Int) →
        insertObject 8 3 samplePool = some (NULL_REF, s1)) ∧
      (((3 : Nat) : Int) ≤ ((8 : Nat) : Int) - s1.nextAvailableIndex →
        insertObject 8 3 samplePool = some
          (s1.referenceID,
           { s1 with
               indexing := s1.indexing ++ [⟨s1.nextAvailableIndex, 3, 1, s1.referenceID⟩],
               nextAvailableIndex := s1.nextAvailableIndex + ((3 : Nat) : Int),
               referenceID := s1.referenceID + 1 })) :=
  insertObject_retry_once 8 3 samplePool (by decide) (by decide) (by decide) (by decide)

/-! ## Lookup by id -/

theorem findNodeLoop_eq_none_iff (ref : Ref) (l : List Node) :
    findNodeLoop ref l = none ↔ ∀ n ∈ l, n.objReferenceID ≠ ref := by
  induction l with
  | nil => simp [findNodeLoop]
  | cons c r ih =>
    by_cases hc : c.objReferenceID = ref
    · simp [findNodeLoop, hc]
    · simp [findNodeLoop, hc, ih]

theorem findNodeLoop_first_match (ref : Ref) (pre : List Node) (n : Node) (post : List Node)
    (hpre : ∀ m ∈ pre, m.objReferenceID ≠ ref) (hn : n.objReferenceID = ref) :
    findNodeLoop ref (pre ++ n :: post) = some n := by
  induction pre with
  | nil => simp [findNodeLoop, hn]
  | cons c r ih =>
    have hc : c.objReferenceID ≠ ref := hpre c (List.mem_cons_self _ _)
    simp only [List.cons_append, findNodeLoop, hc, ne_eq, not_false_eq_true, if_true]
    exact ih (fun m hm => hpre m (List.mem_cons_of_mem _ hm))

theorem updateTarget_first_match (ref : Ref) (f : Node → Node) (pre : List Node) (n : Node)
    (post : List Node) (hpre : ∀ m ∈ pre, m.objReferenceID ≠ ref)
    (hn : n.objReferenceID = ref) :
    updateTarget ref f (pre ++ n :: post) = pre ++ f n :: post := by
  induction pre with
  | nil => simp [updateTarget, hn]
  | cons c r ih =>
    have hc : c.objReferenceID ≠ ref := hpre c (List.mem_cons_self _ _)
    have := ih (fun m hm => hpre m (List.mem_cons_of_mem _ hm))
    simp [updateTarget, hc, this]

theorem findNodeLoop_eq_some (ref : Ref) (l : List Node) (n : Node)
    (h : findNodeLoop ref l = some n) :
    ∃ pre post, l = pre ++ n :: post ∧ (∀ m ∈ pre, m.objReferenceID ≠ ref) ∧
      n.objReferenceID = ref := by
  induction l with
  | nil => simp [findNodeLoop] at h
  | cons c r ih =>
    by_cases hc : c.objReferenceID = ref
    · simp only [findNodeLoop, hc, ne_eq, not_true_eq_false, if_false, Option.some.injEq] at h
      subst h
      exact ⟨[], r, rfl, by simp, hc⟩
    · simp only [findNodeLoop, hc, ne_eq, not_false_eq_true, if_true] at h
      obtain ⟨pre, post, hl, hpre, hn⟩ := ih h
      refine ⟨c :: pre, post, by simp [hl], ?_, hn⟩
      intro m hm
      rcases List.mem_cons.1 hm with rfl | hm
      · exact hc
      · exact hpre m hm

/-! ## Claims about `retrieveObject` and `addReference` -/

/-- C9. The contract of `retrieveObject`: the result is `NULL` exactly when the id is
`NULL_REF`, or the pool is not initialised, or no record has the id, or the first
record with the id has count 0; in every other case it is the start offset of that
record in the active buffer.  The function only reads the pool: it returns a location
and no new state. -/
theorem retrieveObject_contract (ref : Ref) (s : Pool) :
    (retrieveObject ref s = none ↔
      (ref = NULL_REF ∨ s.numObjMngrs = 0 ∨ (∀ n ∈ s.indexing, n.objReferenceID ≠ ref) ∨
        ∃ pre n post, s.indexing = pre ++ n :: post ∧
          (∀ m ∈ pre, m.objReferenceID ≠ ref) ∧ n.objReferenceID = ref ∧
          n.objReferenceCount = 0)) ∧
    (∀ pre n post, ref ≠ NULL_REF → s.numObjMngrs ≠ 0 → s.indexing = pre ++ n :: post →
      (∀ m ∈ pre, m.objReferenceID ≠ ref) → n.objReferenceID = ref →
      n.objReferenceCount ≠ 0 → retrieveObject ref s = some n.memStartIndex) := by
  have hpos : ∀ pre n post, ref ≠ NULL_REF → s.numObjMngrs ≠ 0 →
      s.indexing = pre ++ n :: post → (∀ m ∈ pre, m.objReferenceID ≠ ref) →
      n.objReferenceID = ref → n.objReferenceCount ≠ 0 →
      retrieveObject ref s = some n.memStartIndex := by
    intro pre n post href hinit hl hpre hn hcount
    unfold retrieveObject findNode
    rw [if_pos hinit, if_pos href, if_pos href, hl, findNodeLoop_first_match ref pre n post hpre hn]
    simp only []
    rw [if_pos hcount]
  refine ⟨⟨?_, ?_⟩, hpos⟩
  · intro hnone
    by_cases href : ref = NULL_REF
    · exact Or.inl href
    by_cases hinit : s.numObjMngrs = 0
    · exact Or.inr (Or.inl hinit)
    cases hfind : findNodeLoop ref s.indexing with
    | none => exact Or.inr (Or.inr (Or.inl ((findNodeLoop_eq_none_iff ref _).1 hfind)))
    | some n =>
      obtain ⟨pre, post, hl, hpre, hn⟩ := findNodeLoop_eq_some ref _ n hfind
      by_cases hcount : n.objReferenceCount = 0
      · exact Or.inr (Or.inr (Or.inr ⟨pre, n, post, hl, hpre, hn, hcount⟩))
      · rw [hpos pre n post href hinit hl hpre hn hcount] at hnone
        cases hnone
  · rintro (href | hinit | hnone | ⟨pre, n, post, hl, hpre, hn, hcount⟩)
    · simp [retrieveObject, href]
    · simp [retrieveObject, hinit]
    · unfold retrieveObject findNode
      rw [(findNodeLoop_eq_none_iff ref _).2 hnone]
      simp
    · unfold retrieveObject findNode
      rw [hl, findNodeLoop_first_match ref pre n post hpre hn]
      by_cases hinit : s.numObjMngrs = 0 <;> by_cases href : ref = NULL_REF <;>
        simp [hcount, hinit, href]

/-- The result of `addReference` on the first record with the id, when that record has
references: its count is stepped by `incrementInt`. -/
theorem addReference_first_match (ref : Ref) (s : Pool) (pre : List Node) (n : Node)
    (post : List Node) (hinit : s.numObjMngrs ≠ 0) (href : ref ≠ NULL_REF)
    (hl : s.indexing = pre ++ n :: post) (hpre : ∀ m ∈ pre, m.objReferenceID ≠ ref)
    (hn : n.objReferenceID = ref) (hcount : n.objReferenceCount ≠ 0) :
    addReference ref s =
      { s with indexing :=
          pre ++ { n with objReferenceCount := incrementInt n.objReferenceCount } :: post } := by
  unfold addReference findNode
  rw [if_pos hinit, if_pos href, if_pos href, hl,
    findNodeLoop_first_match ref pre n post hpre hn]
  simp only []
  rw [if_pos hcount, updateTarget_first_match ref _ pre n post hpre hn]

/-- On every value of an `int` the step `incrementInt` is the sum taken modulo `2^32`. -/
theorem incrementInt_eq_wrapInt (c : Int) (hlo : INT_MIN ≤ c) (hhi : c ≤ INT_MAX) :
    incrementInt c = wrapInt (c + 1) := by
  unfold incrementInt wrapInt INT_MAX INT_MIN at *
  split <;> omega

/-- On every value of an `int` the step `decrementInt` is the difference taken modulo
`2^32`. -/
theorem decrementInt_eq_wrapInt (c : Int) (hlo : INT_MIN ≤ c) (hhi : c ≤ INT_MAX) :
    decrementInt c = wrapInt (c - 1) := by
  unfold decrementInt wrapInt INT_MAX INT_MIN at *
  split <;> omega

/-! ## One record under repeated `addReference` -/

theorem addReference_singlePool (f1 f2 : Buffer) (size : Nat) (c : Int) (hc : c ≠ 0) :
    addReference 1 (singlePool f1 f2 size c) = singlePool f1 f2 size (incrementInt c) := by
  rw [addReference_first_match 1 (singlePool f1 f2 size c) [] ⟨0, size, c, 1⟩ []
    (by simp [singlePool]) (by decide) rfl (by simp) rfl hc]
  rfl

/-- The count of a fresh record after `N` calls of `addReference`, for `N` up to
`2^32 - 1`: the number `1 + N` as a 32-bit `int`.  It is `1 + N` up to `INT_MAX`,
negative from `N = 2^31 - 1` on, and 0 at `N = 2^32 - 1`. -/
theorem iterate_addReference_singlePool (f1 f2 : Buffer) (size : Nat) (N : Nat)
    (hN : N ≤ 4294967295) :
    (addReference 1)^[N] (singlePool f1 f2 size 1) =
      singlePool f1 f2 size (wrapInt (1 + (N : Int))) := by
  induction N with
  | zero => rfl
  | succ N ih =>
    rw [Function.iterate_succ_apply', ih (by omega)]
    have hne : wrapInt (1 + (N : Int)) ≠ 0 := by
      unfold wrapInt
      omega
    have hstep : incrementInt (wrapInt (1 + (N : Int))) =
        wrapInt (1 + ((N + 1 : Nat) : Int)) := by
      unfold incrementInt wrapInt INT_MAX INT_MIN
      push_cast
      split <;> omega
    rw [addReference_singlePool f1 f2 size _ hne, hstep]

theorem runCalls_replicate_add (C : Nat) (ref : Ref) (N : Nat) : ∀ s : Pool,
    runCalls C (List.replicate N (Call.add ref)) s =
      some ([], (addReference ref)^[N] s) := by
  induction N with
  | zero => intro s; rfl
  | succ N ih =>
    intro s
    rw [List.replicate_succ, Function.iterate_succ_apply]
    simp [runCalls, runCall, ih]

/-- The first allocation in a fresh pool, for a size that fits. -/
theorem insertObject_fresh (C : Nat) (f1 f2 : Buffer) (size : Nat) (hpos : 0 < size)
    (hle : size ≤ C) :
    insertObject C size (initPool f1 f2 startState) = some (1, singlePool f1 f2 size 1) := by
  have hfit : (size : Int) ≤ (C : Int) - (0 : Int) := by omega
  simp [insertObject, initPool, startState, allocateNode, makeNode, insertAtEnd,
    insertAtEndList, singlePool, hpos, hle, hfit]

/-- The pool after `insertObject(size)` and `N` calls `addReference(1)` from a fresh
pool, for `N` up to `2^32 - 1`. -/
theorem runCalls_insertThenAdd (C : Nat) (f1 f2 : Buffer) (size : Nat) (N : Nat)
    (hpos : 0 < size) (hle : size ≤ C) (hN : N ≤ 4294967295) :
    runCalls C (insertThenAdd size N) (initPool f1 f2 startState) =
      some ([1], singlePool f1 f2 size (wrapInt (1 + (N : Int)))) := by
  unfold insertThenAdd
  rw [runCalls]
  simp only [runCall, insertObject_fresh C f1 f2 size hpos hle]
  rw [runCalls_replicate_add, iterate_addReference_singlePool f1 f2 size N hN]
  rfl

/-- In a pool that satisfies the invariant the copy phase is defined: every range can
be read and the live bytes fit. -/
theorem Inv.readable {C : Nat} {s : Pool} (h : Inv C s) :
    (∀ n ∈ s.indexing, 0 ≤ n.memStartIndex ∧ n.memStartIndex + (n.memSize : Int) ≤ (C : Int)) ∧
      liveBytes s.indexing ≤ C := by
  constructor
  · intro n hn
    have := tiledFrom_bounds s.indexing 0 h.tiled n hn
    have hf := h.fits
    omega
  · exact le_trans (liveBytes_le_totalSize _) h.fits

theorem inv_initPool (C : Nat) (f1 f2 : Buffer) (s : Pool) (h0 : s.numObjMngrs = 0) :
    Inv C (initPool f1 f2 s) := by
  unfold initPool
  rw [if_pos h0]
  exact
    { init := by simp [h0]
      act := ⟨f1, rfl⟩
      inact := ⟨f2, rfl⟩
      tiled := trivial
      cursor := rfl
      fits := Nat.zero_le _
      sizes := by intro n hn; simp at hn
      ids := by intro n hn; simp at hn
      sorted := List.Pairwise.nil
      counter := Nat.one_pos }

theorem inv_allocateNode (C : Nat) (size : Nat) (s : Pool) (h : Inv C s) (hpos : 0 < size)
    (hfit : (size : Int) ≤ (C : Int) - s.nextAvailableIndex) :
    Inv C (allocateNode size s).2 := by
  rw [allocateNode_eq]
  have hcur := h.cursor
  exact
    { init := h.init
      act := h.act
      inact := h.inact
      tiled := by
        show tiledFrom 0 (s.indexing ++ [_])
        rw [tiledFrom_append]
        refine ⟨h.tiled, ?_, trivial⟩
        show s.nextAvailableIndex = 0 + (totalSize s.indexing : Int)
        omega
      cursor := by
        show s.nextAvailableIndex + (size : Int) = (totalSize (s.indexing ++ [_]) : Int)
        rw [totalSize_append]
        simp only [totalSize]
        push_cast
        omega
      fits := by
        show totalSize (s.indexing ++ [_]) ≤ C
        rw [totalSize_append]
        simp only [totalSize]
        omega
      sizes := by
        intro n hn
        rcases List.mem_append.1 hn with hn | hn
        · exact h.sizes n hn
        · rw [List.mem_singleton] at hn
          subst hn
          exact hpos
      ids := by
        intro n hn
        show 0 < n.objReferenceID ∧ n.objReferenceID < s.referenceID + 1
        rcases List.mem_append.1 hn with hn | hn
        · have := h.ids n hn
          exact ⟨this.1, Nat.lt_succ_of_lt this.2⟩
        · rw [List.mem_singleton] at hn
          subst hn
          have := h.counter
          exact ⟨this, Nat.lt_succ_self _⟩
      sorted := by
        show (handles (s.indexing ++ [_])).Pairwise _
        unfold handles
        rw [List.map_append, List.pairwise_append]
        refine ⟨h.sorted, by simp, ?_⟩
        intro x hx y hy
        rw [List.mem_map] at hx
        obtain ⟨n, hn, rfl⟩ := hx
        simp only [List.map_cons, List.map_nil, List.mem_singleton] at hy
        subst hy
        exact (h.ids n hn).2
      counter := Nat.succ_pos _ }

theorem inv_compact (C : Nat) (s : Pool) (h : Inv C s) :
    ∃ s1, compact C s = some s1 ∧ Inv C s1 ∧ s1.referenceID = s.referenceID ∧
      s1.nextAvailableIndex = (liveBytes s.indexing : Int) ∧
      s1.indexing = liveNodes (relocate 0 s.indexing) := by
  obtain ⟨a, hA⟩ := h.act
  obtain ⟨b, hI⟩ := h.inact
  obtain ⟨b', hc, _⟩ := compact_spec C s a b hA hI (fun n hn _ => h.readable.1 n hn)
    h.readable.2
  refine ⟨_, hc, ?_, rfl, rfl, rfl⟩
  exact
    { init := h.init
      act := ⟨b', rfl⟩
      inact := ⟨a, rfl⟩
      tiled := liveNodes_relocate_tiled s.indexing 0
      cursor := by
        show (liveBytes s.indexing : Int) = (totalSize (liveNodes (relocate 0 s.indexing)) : Int)
        rw [liveNodes_relocate_totalSize]
      fits := by
        show totalSize (liveNodes (relocate 0 s.indexing)) ≤ C
        rw [liveNodes_relocate_totalSize]
        exact h.readable.2
      sizes := by
        intro n' hn'
        obtain ⟨n, hn, _, hsz, _⟩ := mem_liveNodes_relocate s.indexing 0 n' hn'
        rw [hsz]
        exact h.sizes n hn
      ids := by
        intro n' hn'
        obtain ⟨n, hn, hid, _, _⟩ := mem_liveNodes_relocate s.indexing 0 n' hn'
        show 0 < n'.objReferenceID ∧ n'.objReferenceID < s.referenceID
        rw [hid]
        exact h.ids n hn
      sorted := by
        show (handles (liveNodes (relocate 0 s.indexing))).Pairwise _
        rw [liveNodes_relocate_handles]
        exact List.Pairwise.sublist (handles_liveNodes_sublist s.indexing) h.sorted
      counter := h.counter }

theorem addReference_cases (ref : Ref) (s : Pool) :
    addReference ref s = s ∨
      ∃ pre n post, s.indexing = pre ++ n :: post ∧
        (∀ m ∈ pre, m.objReferenceID ≠ ref) ∧ n.objReferenceID = ref ∧
        n.objReferenceCount ≠ 0 ∧
        addReference ref s =
          { s with indexing :=
              pre ++ { n with objReferenceCount := incrementInt n.objReferenceCount }
                :: post } := by
  unfold addReference findNode
  by_cases hinit : s.numObjMngrs ≠ 0
  · by_cases href : ref ≠ NULL_REF
    · rw [if_pos hinit, if_pos href, if_pos href]
      cases hfind : findNodeLoop ref s.indexing with
      | none => left; rfl
      | some n =>
        obtain ⟨pre, post, hl, hpre, hn⟩ := findNodeLoop_eq_some ref _ n hfind
        by_cases hcount : n.objReferenceCount ≠ 0
        · right
          refine ⟨pre, n, post, hl, hpre, hn, hcount, ?_⟩
          simp only []
          rw [if_pos hcount]
          conv_lhs => rw [hl, updateTarget_first_match ref _ pre n post hpre hn]
        · left
          simp only []
          rw [if_neg hcount]
    · left; rw [if_pos hinit, if_neg href]
  · left; rw [if_neg hinit]

theorem dropReference_cases (ref : Ref) (s : Pool) :
    dropReference ref s = s ∨
      ∃ pre n post, s.indexing = pre ++ n :: post ∧
        (∀ m ∈ pre, m.objReferenceID ≠ ref) ∧ n.objReferenceID = ref ∧
        n.objReferenceCount ≠ 0 ∧
        dropReference ref s =
          { s with indexing :=
              pre ++ { n with objReferenceCount := decrementInt n.objReferenceCount }
                :: post } := by
  unfold dropReference findNode
  by_cases hinit : s.numObjMngrs ≠ 0
  · by_cases href : ref ≠ NULL_REF
    · rw [if_pos hinit, if_pos href, if_pos href]
      cases hfind : findNodeLoop ref s.indexing with
      | none => left; rfl
      | some n =>
        obtain ⟨pre, post, hl, hpre, hn⟩ := findNodeLoop_eq_some ref _ n hfind
        by_cases hcount : n.objReferenceCount ≠ 0
        · right
          refine ⟨pre, n, post, hl, hpre, hn, hcount, ?_⟩
          simp only []
          rw [if_pos hcount]
          conv_lhs => rw [hl, updateTarget_first_match ref _ pre n post hpre hn]
        · left
          simp only []
          rw [if_neg hcount]
    · left; rw [if_pos hinit, if_neg href]
  · left; rw [if_neg hinit]

/-- Replacing the count of one record keeps the invariant. -/
theorem inv_set_count (C : Nat) (s : Pool) (pre : List Node) (n : Node) (post : List Node)
    (c : Int) (h : Inv C s) (hl : s.indexing = pre ++ n :: post) :
    Inv C { s with indexing := pre ++ { n with objReferenceCount := c } :: post } := by
  have htiled := h.tiled
  have hcur := h.cursor
  have hfits := h.fits
  have hsorted := h.sorted
  rw [hl] at htiled hcur hfits hsorted
  have hmem : ∀ m ∈ pre ++ { n with objReferenceCount := c } :: post,
      m ∈ s.indexing ∨ m = { n with objReferenceCount := c } := by
    intro m hm
    rw [hl]
    rcases List.mem_append.1 hm with hm | hm
    · exact Or.inl (List.mem_append_left _ hm)
    · rcases List.mem_cons.1 hm with hm | hm
      · exact Or.inr hm
      · exact Or.inl (List.mem_append_right _ (List.mem_cons_of_mem _ hm))
  have hn : n ∈ s.indexing := by rw [hl]; simp
  exact
    { init := h.init
      act := h.act
      inact := h.inact
      tiled := by
        simp only [tiledFrom_append, tiledFrom] at htiled ⊢
        exact htiled
      cursor := by
        simp only [totalSize_append, totalSize] at hcur ⊢
        exact hcur
      fits := by
        simp only [totalSize_append, totalSize] at hfits ⊢
        exact hfits
      sizes := by
        intro m hm
        rcases hmem m hm with hm | rfl
        · exact h.sizes m hm
        · exact h.sizes n hn
      ids := by
        intro m hm
        rcases hmem m hm with hm | rfl
        · exact h.ids m hm
        · exact h.ids n hn
      sorted := by
        simp only [handles, List.map_append, List.map_cons] at hsorted ⊢
        exact hsorted
      counter := h.counter }

theorem inv_addReference (C : Nat) (ref : Ref) (s : Pool) (h : Inv C s) :
    Inv C (addReference ref s) := by
  rcases addReference_cases ref s with heq | ⟨pre, n, post, hl, _, _, _, heq⟩
  · rw [heq]; exact h
  · rw [heq]
    exact inv_set_count C s pre n post _ h hl

theorem inv_dropReference (C : Nat) (ref : Ref) (s : Pool) (h : Inv C s) :
    Inv C (dropReference ref s) := by
  rcases dropReference_cases ref s with heq | ⟨pre, n, post, hl, _, _, hne, heq⟩
  · rw [heq]; exact h
  · rw [heq]
    exact inv_set_count C s pre n post _ h hl

/-- From a pool that satisfies the invariant `insertObject` always returns, keeps the
invariant, and either fails without touching `referenceID` or returns the old
`referenceID` and advances it by one. -/
theorem inv_insertObject (C : Nat) (size : Nat) (s : Pool) (h : Inv C s) :
    ∃ r s', insertObject C size s = some (r, s') ∧ Inv C s' ∧
      ((r = NULL_REF ∧ s'.referenceID = s.referenceID) ∨
        (r = s.referenceID ∧ s'.referenceID = s.referenceID + 1)) := by
  have hinit : s.numObjMngrs ≠ 0 := by rw [h.init]; decide
  unfold insertObject
  rw [if_pos hinit]
  by_cases hsz : 0 < size ∧ size ≤ C
  · rw [if_pos hsz]
    by_cases hfit : (size : Int) ≤ (C : Int) - s.nextAvailableIndex
    · rw [if_pos hfit]
      exact ⟨_, _, rfl, inv_allocateNode C size s h hsz.1 hfit, Or.inr ⟨rfl, rfl⟩⟩
    · rw [if_neg hfit]
      obtain ⟨s1, hc, hinv1, hid1, _, _⟩ := inv_compact C s h
      rw [hc]
      simp only []
      by_cases hfit1 : (size : Int) ≤ (C : Int) - s1.nextAvailableIndex
      · rw [if_pos hfit1]
        refine ⟨_, _, rfl, inv_allocateNode C size s1 hinv1 hsz.1 hfit1, Or.inr ⟨hid1, ?_⟩⟩
        show s1.referenceID + 1 = _
        rw [hid1]
      · rw [if_neg hfit1]
        exact ⟨_, _, rfl, hinv1, Or.inl ⟨rfl, hid1⟩⟩
  · rw [if_neg hsz]
    exact ⟨_, _, rfl, h, Or.inl ⟨rfl, rfl⟩⟩

theorem successes_cons_zero (rs : List Ref) : successes (NULL_REF :: rs) = successes rs := by
  simp [successes]

theorem successes_cons_pos (r : Ref) (rs : List Ref) (h : r ≠ NULL_REF) :
    successes (r :: rs) = r :: successes rs := by
  simp [successes, h]

/-- Every sequence of calls runs to the end from a pool that satisfies the invariant;
the successful allocations return `referenceID`, `referenceID + 1`, ... and the counter
ends that many steps further. -/
theorem runCalls_spec (C : Nat) (cs : List Call) : ∀ s : Pool, Inv C s →
    ∃ rs s', runCalls C cs s = some (rs, s') ∧ Inv C s' ∧
      successes rs = List.range' s.referenceID (successes rs).length ∧
      s'.referenceID = s.referenceID + (successes rs).length := by
  induction cs with
  | nil =>
    intro s h
    exact ⟨[], s, rfl, h, by simp [successes], by simp [successes]⟩
  | cons c rest ih =>
    intro s h
    cases c with
    | insert size =>
      obtain ⟨r, s1, hins, hinv1, hr⟩ := inv_insertObject C size s h
      obtain ⟨rs, s2, hrun, hinv2, hsucc, hctr⟩ := ih s1 hinv1
      refine ⟨r :: rs, s2, ?_, hinv2, ?_⟩
      · simp [runCalls, runCall, hins, hrun]
      · rcases hr with ⟨hr0, hid⟩ | ⟨hrid, hid⟩
        · subst hr0
          rw [successes_cons_zero, ← hid]
          exact ⟨hsucc, hctr⟩
        · have hpos : r ≠ NULL_REF := by
            rw [hrid]
            exact Nat.pos_iff_ne_zero.1 h.counter
          rw [successes_cons_pos r rs hpos, List.length_cons, List.range'_succ, ← hrid]
          rw [hid, ← hrid] at hsucc hctr
          refine ⟨?_, ?_⟩
          · rw [← hsucc]
          · rw [hctr, Nat.add_assoc, Nat.add_comm 1]
    | add ref =>
      obtain ⟨rs, s2, hrun, hinv2, hsucc, hctr⟩ := ih _ (inv_addReference C ref s h)
      refine ⟨rs, s2, by simp [runCalls, runCall, hrun], hinv2, ?_⟩
      have hid : (addReference ref s).referenceID = s.referenceID := by
        rcases addReference_cases ref s with heq | ⟨_, _, _, _, _, _, _, heq⟩ <;> rw [heq]
      rw [hid] at hsucc hctr
      exact ⟨hsucc, hctr⟩
    | drop ref =>
      obtain ⟨rs, s2, hrun, hinv2, hsucc, hctr⟩ := ih _ (inv_dropReference C ref s h)
      refine ⟨rs, s2, by simp [runCalls, runCall, hrun], hinv2, ?_⟩
      have hid : (dropReference ref s).referenceID = s.referenceID := by
        rcases dropReference_cases ref s with heq | ⟨_, _, _, _, _, _, _, heq⟩ <;> rw [heq]
      rw [hid] at hsucc hctr
      exact ⟨hsucc, hctr⟩
    | retrieve ref =>
      obtain ⟨rs, s2, hrun, hinv2, hsucc, hctr⟩ := ih s h
      exact ⟨rs, s2, by simp [runCalls, runCall, hrun], hinv2, hsucc, hctr⟩

/-! ## Claims about handles and reference counts -/

/-- C7. Handle uniqueness and monotonicity: after `initPool` on an uninitialised pool,
every sequence of `insertObject`, `addReference`, `dropReference` and `retrieveObject`
calls runs to the end; the references returned by the successful `insertObject` calls
are exactly 1, 2, ..., k in call order (so strictly increasing and never `NULL_REF`),
and `referenceID` ends at k + 1: a failed allocation consumes no id. -/
theorem handles_unique_and_monotone (MEMORY_SIZE : Nat) (fresh1 fresh2 : Buffer) (s0 : Pool)
    (h0 : s0.numObjMngrs = 0) (cs : List Call) :
    ∃ rs s', runCalls MEMORY_SIZE cs (initPool fresh1 fresh2 s0) = some (rs, s') ∧
      successes rs = List.range' 1 (successes rs).length ∧
      (successes rs).Pairwise (fun x y => x < y) ∧
      (∀ r ∈ successes rs, r ≠ NULL_REF) ∧
      s'.referenceID = (successes rs).length + 1 := by
  obtain ⟨rs, s', hrun, _, hsucc, hctr⟩ :=
    runCalls_spec MEMORY_SIZE cs _ (inv_initPool MEMORY_SIZE fresh1 fresh2 s0 h0)
  have hid : (initPool fresh1 fresh2 s0).referenceID = 1 := by
    unfold initPool
    rw [if_pos h0]
  rw [hid] at hsucc hctr
  refine ⟨rs, s', hrun, hsucc, ?_, ?_, by rw [hctr, Nat.add_comm]⟩
  · rw [hsucc]
    exact List.pairwise_lt_range' 1 _
  · intro r hr
    unfold successes at hr
    rw [List.mem_filter] at hr
    simpa using hr.2

/-- Witness for C7: the calls of the general cases of `testInsertObject`, with
`MEMORY_SIZE = 524288`. -/
theorem handles_unique_and_monotone_witness :
    ∃ rs s', runCalls 524288
        [Call.insert 1000, Call.insert 500000, Call.insert 24000, Call.drop 2,
          Call.insert 24000, Call.retrieve 3]
        (initPool zeroBuffer zeroBuffer startState) = some (rs, s') ∧
      successes rs = List.range' 1 (successes rs).length ∧
      (successes rs).Pairwise (fun x y => x < y) ∧
      (∀ r ∈ successes rs, r ≠ NULL_REF) ∧
      s'.referenceID = (successes rs).length + 1 :=
  handles_unique_and_monotone 524288 zeroBuffer zeroBuffer startState rfl _

/-- C12. Life-cycle gating.  The pool is not initialised at program start and after
`destroyPool` on an initialised pool, whatever that pool held.  On every pool that is
not initialised, `insertObject` returns `NULL_REF` for every size, `retrieveObject`
returns `NULL` for every id, and `addReference`, `dropReference` and `destroyPool` do
nothing; the pool, both buffer pointers included, is unchanged by each of them. -/
theorem lifecycle_gating (MEMORY_SIZE : Nat) :
    startState.numObjMngrs = 0 ∧
    (∀ s0 : Pool, s0.numObjMngrs = 1 → (destroyPool s0).numObjMngrs = 0) ∧
    ∀ s : Pool, s.numObjMngrs = 0 →
      (∀ size, insertObject MEMORY_SIZE size s = some (NULL_REF, s)) ∧
      (∀ ref, retrieveObject ref s = none) ∧
      (∀ ref, addReference ref s = s) ∧
      (∀ ref, dropReference ref s = s) ∧
      destroyPool s = s := by
  refine ⟨rfl, ?_, ?_⟩
  · intro s0 h1
    simp [destroyPool, h1]
  · intro s h0
    refine ⟨?_, ?_, ?_, ?_, ?_⟩
    · intro size; simp [insertObject, h0]
    · intro ref; simp [retrieveObject, h0]
    · intro ref; simp [addReference, h0]
    · intro ref; simp [dropReference, h0]
    · simp [destroyPool, h0]

/-- C13. Compaction triggers only on exhaustion: on an initialised pool, a request
with `0 < size ≤ MEMORY_SIZE - nextAvailableIndex` returns without running `compact`
(also where `compact` is not defined): the two buffer pointers and every byte they
hold are as before, and the old index is the front of the new one, record for record
with the same offset, size, count and id. -/
theorem insertObject_no_compaction (MEMORY_SIZE : Nat) (size : Nat) (s : Pool)
    (hinit : s.numObjMngrs ≠ 0) (hpos : 0 < size)
    (hfit : (size : Int) ≤ (MEMORY_SIZE : Int) - s.nextAvailableIndex) :
    ∃ r s', insertObject MEMORY_SIZE size s = some (r, s') ∧
      s'.activeBuffer = s.activeBuffer ∧ s'.inactiveBuffer = s.inactiveBuffer ∧
      ∃ added, s'.indexing = s.indexing ++ added := by
  unfold insertObject
  rw [if_pos hinit]
  by_cases hcap : size ≤ MEMORY_SIZE
  · rw [if_pos ⟨hpos, hcap⟩, if_pos hfit, allocateNode_eq]
    exact ⟨_, _, rfl, rfl, rfl, _, rfl⟩
  · rw [if_neg (fun h => hcap h.2)]
    exact ⟨_, _, rfl, rfl, rfl, [], by simp⟩

/-- Witness for C13: a 1-byte request on the 8-byte sample pool, whose cursor is 7. -/
theorem insertObject_no_compaction_witness :
    ∃ r s', insertObject 8 1 samplePool = some (r, s') ∧
      s'.activeBuffer = samplePool.activeBuffer ∧
      s'.inactiveBuffer = samplePool.inactiveBuffer ∧
      ∃ added, s'.indexing = samplePool.indexing ++ added :=
  insertObject_no_compaction 8 1 samplePool (by decide) (by decide) (by decide)

/-- C16. Fresh pool: `initPool` on a pool that is not initialised (at program start or
after `destroyPool`) gives an empty index, cursor 0, `referenceID` 1 and two allocated
buffers; so for every size with `0 < size ≤ MEMORY_SIZE`, `MEMORY_SIZE` itself
included, the first `insertObject` returns 1 and `retrieveObject(1)` then returns the
location at offset 0 of the active buffer. -/
theorem fresh_pool (MEMORY_SIZE : Nat) (fresh1 fresh2 : Buffer) (s0 : Pool)
    (h0 : s0.numObjMngrs = 0) :
    initPool fresh1 fresh2 s0 =
      { numObjMngrs := 1, activeBuffer := some fresh1, inactiveBuffer := some fresh2,
        referenceID := 1, nextAvailableIndex := 0, indexing := [] } ∧
    ∀ size, 0 < size → size ≤ MEMORY_SIZE →
      ∃ s1, insertObject MEMORY_SIZE size (initPool fresh1 fresh2 s0) = some (1, s1) ∧
        retrieveObject 1 s1 = some 0 := by
  have hinit : initPool fresh1 fresh2 s0 =
      { numObjMngrs := 1, activeBuffer := some fresh1, inactiveBuffer := some fresh2,
        referenceID := 1, nextAvailableIndex := 0, indexing := [] } := by
    unfold initPool
    rw [if_pos h0, h0]
    rfl
  refine ⟨hinit, ?_⟩
  intro size hpos hcap
  rw [hinit]
  refine ⟨_, insertObject_fast_path_eq MEMORY_SIZE size _ Int.one_ne_zero hpos hcap
    (by show (size : Int) ≤ (MEMORY_SIZE : Int) - 0; omega), ?_⟩
  simp [retrieveObject, findNode, findNodeLoop]

/-- Witness for C16: `initPool` after `destroyPool` on the sample pool. -/
theorem fresh_pool_witness :
    initPool zeroBuffer rampBuffer (destroyPool samplePool) =
      { numObjMngrs := 1, activeBuffer := some zeroBuffer, inactiveBuffer := some rampBuffer,
        referenceID := 1, nextAvailableIndex := 0, indexing := [] } ∧
    ∀ size, 0 < size → size ≤ 524288 →
      ∃ s1, insertObject 524288 size (initPool zeroBuffer rampBuffer (destroyPool samplePool)) =
          some (1, s1) ∧
        retrieveObject 1 s1 = some 0 :=
  fresh_pool 524288 zeroBuffer rampBuffer (destroyPool samplePool) (by decide)

/-- C17. A second `initPool` is a no-op: on an initialised pool it returns the pool as
it is (index, records, cursor, `referenceID`, both buffers, `numObjMngrs`), so
`retrieveObject` gives the same answer for every id before and after. -/
theorem initPool_twice (fresh1 fresh2 : Buffer) (s : Pool) (hinit : s.numObjMngrs ≠ 0) :
    initPool fresh1 fresh2 s = s ∧
      ∀ ref, retrieveObject ref (initPool fresh1 fresh2 s) = retrieveObject ref s := by
  have h : initPool fresh1 fresh2 s = s := by
    unfold initPool
    rw [if_neg hinit]
  exact ⟨h, fun ref => by rw [h]⟩

/-- Witness for C17 on the sample pool. -/
theorem initPool_twice_witness :
    initPool zeroBuffer zeroBuffer samplePool = samplePool ∧
      ∀ ref, retrieveObject ref (initPool zeroBuffer zeroBuffer samplePool) =
        retrieveObject ref samplePool :=
  initPool_twice zeroBuffer zeroBuffer samplePool (by decide)

/-- C19. The function `updateIndex` is a filter: for every index the loop ends (one
pass more than there are records without references is enough, and the fuel given is
at least that), and what is left are exactly the records with count other than 0,
unchanged and in their order; an index without garbage is returned as it is. -/
theorem updateIndex_is_filter (l : List Node) :
    updateIndexList l = some (l.filter (fun n => decide (n.objReferenceCount ≠ 0))) ∧
    (∀ fuel, (l.filter (fun n => decide (n.objReferenceCount = 0))).length < fuel →
      updateIndexLoop fuel l = some (l.filter (fun n => decide (n.objReferenceCount ≠ 0)))) ∧
    ((∀ n ∈ l, n.objReferenceCount ≠ 0) → updateIndexList l = some l) ∧
    ∀ s : Pool, s.indexing = l →
      updateIndex s =
        some { s with indexing := l.filter (fun n => decide (n.objReferenceCount ≠ 0)) } := by
  have hdead : l.filter (fun n => decide (n.objReferenceCount = 0)) =
      l.filter (fun n => !isLive n) := by
    apply List.filter_congr
    intro n _
    simp [isLive]
  refine ⟨updateIndexList_eq l, ?_, ?_, ?_⟩
  · intro fuel hfuel
    rw [hdead] at hfuel
    exact updateIndexLoop_eq fuel l hfuel
  · intro hall
    rw [updateIndexList_eq, liveNodes_of_all_live l hall]
  · intro s hs
    rw [updateIndex_eq, hs]
    rfl

/-- The boundary cases of `updateIndex` on sample lists: a sole garbage record, garbage
at the head, at the tail, in the interior, adjacent garbage records, all garbage. -/
theorem updateIndex_boundaries :
    updateIndexList [⟨0, 4, 0, 1⟩] = some [] ∧
    updateIndexList [⟨0, 4, 0, 1⟩, ⟨4, 2, 1, 2⟩] = some [⟨4, 2, 1, 2⟩] ∧
    updateIndexList [⟨0, 4, 1, 1⟩, ⟨4, 2, 0, 2⟩] = some [⟨0, 4, 1, 1⟩] ∧
    updateIndexList [⟨0, 4, 1, 1⟩, ⟨4, 2, 0, 2⟩, ⟨6, 1, 3, 3⟩] =
      some [⟨0, 4, 1, 1⟩, ⟨6, 1, 3, 3⟩] ∧
    updateIndexList [⟨0, 1, 1, 1⟩, ⟨1, 1, 0, 2⟩, ⟨2, 1, 0, 3⟩, ⟨3, 1, 2, 4⟩] =
      some [⟨0, 1, 1, 1⟩, ⟨3, 1, 2, 4⟩] ∧
    updateIndexList [⟨0, 1, 0, 1⟩, ⟨1, 1, 0, 2⟩, ⟨2, 1, 0, 3⟩] = some [] := by
  decide

/-! ## Claims about `dumpPool` -/

/-- The report of `dumpPool` for the sample pool, written out. -/
theorem dumpPool_samplePool :
    dumpPool samplePool = DumpReport.entries [⟨1, 0, 1, 2, 1⟩, ⟨2, 5, 3, 2, 2⟩] := by
  decide

/-! ## Claims about reachable states -/

theorem tiledFrom_pairwise (l : List Node) : ∀ t : Int, tiledFrom t l →
    l.Pairwise (fun n m => n.memStartIndex + (n.memSize : Int) ≤ m.memStartIndex) := by
  induction l with
  | nil => intro t _; exact List.Pairwise.nil
  | cons c r ih =>
    intro t ht
    obtain ⟨h1, h2⟩ := ht
    refine List.Pairwise.cons ?_ (ih _ h2)
    intro m hm
    have := (tiledFrom_bounds r _ h2 m hm).1
    omega

/-- C14. Live ranges never overlap: after `initPool`, every sequence of calls runs to
the end, and in the pool it leaves the byte range `[memStartIndex, memStartIndex +
memSize)` of every record with a positive count lies inside `[0, MEMORY_SIZE)` and the
ranges of any two such records at different places of the index are disjoint. -/
theorem live_ranges_disjoint (MEMORY_SIZE : Nat) (fresh1 fresh2 : Buffer) (s0 : Pool)
    (h0 : s0.numObjMngrs = 0) (cs : List Call) :
    ∃ rs s, runCalls MEMORY_SIZE cs (initPool fresh1 fresh2 s0) = some (rs, s) ∧
      (∀ n ∈ s.indexing, 0 < n.objReferenceCount →
        0 ≤ n.memStartIndex ∧ n.memStartIndex + (n.memSize : Int) ≤ (MEMORY_SIZE : Int)) ∧
      s.indexing.Pairwise (fun n m =>
        0 < n.objReferenceCount → 0 < m.objReferenceCount →
          n.memStartIndex + (n.memSize : Int) ≤ m.memStartIndex ∨
            m.memStartIndex + (m.memSize : Int) ≤ n.memStartIndex) := by
  obtain ⟨rs, s, hrun, hinv, _, _⟩ :=
    runCalls_spec MEMORY_SIZE cs _ (inv_initPool MEMORY_SIZE fresh1 fresh2 s0 h0)
  refine ⟨rs, s, hrun, fun n hn _ => hinv.readable.1 n hn, ?_⟩
  exact List.Pairwise.imp (fun h _ _ => Or.inl h) (tiledFrom_pairwise _ 0 hinv.tiled)

/-- Witness for C14: the calls of general case 2 of `testDropReference`, with
`MEMORY_SIZE = 524288`. -/
theorem live_ranges_disjoint_witness :
    ∃ rs s, runCalls 524288
        [Call.insert 30040, Call.insert 150000, Call.insert 250000, Call.insert 94000,
          Call.add 1, Call.drop 4, Call.drop 3, Call.add 2, Call.insert 1050]
        (initPool zeroBuffer zeroBuffer startState) = some (rs, s) ∧
      (∀ n ∈ s.indexing, 0 < n.objReferenceCount →
        0 ≤ n.memStartIndex ∧ n.memStartIndex + (n.memSize : Int) ≤ ((524288 : Nat) : Int)) ∧
      s.indexing.Pairwise (fun n m =>
        0 < n.objReferenceCount → 0 < m.objReferenceCount →
          n.memStartIndex + (n.memSize : Int) ≤ m.memStartIndex ∨
            m.memStartIndex + (m.memSize : Int) ≤ n.memStartIndex) :=
  live_ranges_disjoint 524288 zeroBuffer zeroBuffer startState rfl _

theorem findNodeLoop_append_left (ref : Ref) (l l2 : List Node) (n : Node)
    (h : findNodeLoop ref l = some n) : findNodeLoop ref (l ++ l2) = some n := by
  obtain ⟨pre, post, hl, hpre, hn⟩ := findNodeLoop_eq_some ref l n h
  rw [hl, List.append_assoc, List.cons_append]
  exact findNodeLoop_first_match ref pre n (post ++ l2) hpre hn

theorem findNodeLoop_forall₂ {R : Node → Node → Prop} (ref : Ref) {l l' : List Node}
    (h : List.Forall₂ R l l') (hid : ∀ n n', R n n' → n'.objReferenceID = n.objReferenceID) :
    ∀ n, findNodeLoop ref l = some n → ∃ n', findNodeLoop ref l' = some n' ∧ R n n' := by
  induction h with
  | nil => intro n hn; simp [findNodeLoop] at hn
  | @cons x x' r r' hxx _ ih =>
    intro n hn
    have hx' := hid x x' hxx
    by_cases hx : x.objReferenceID = ref
    · simp only [findNodeLoop, hx, ne_eq, not_true_eq_false, if_false, Option.some.injEq] at hn
      subst hn
      exact ⟨x', by simp [findNodeLoop, hx', hx], hxx⟩
    · simp only [findNodeLoop, hx, ne_eq, not_false_eq_true, if_true] at hn
      obtain ⟨n', hn', hr⟩ := ih n hn
      exact ⟨n', by simp [findNodeLoop, hx', hx, hn'], hr⟩

theorem findNodeLoop_liveNodes (ref : Ref) (l : List Node) (n : Node)
    (h : findNodeLoop ref l = some n) (hlive : n.objReferenceCount ≠ 0) :
    findNodeLoop ref (liveNodes l) = some n := by
  induction l with
  | nil => simp [findNodeLoop] at h
  | cons x r ih =>
    by_cases hx : x.objReferenceID = ref
    · simp only [findNodeLoop, hx, ne_eq, not_true_eq_false, if_false, Option.some.injEq] at h
      subst h
      rw [liveNodes_cons_live x r hlive]
      simp [findNodeLoop, hx]
    · simp only [findNodeLoop, hx, ne_eq, not_false_eq_true, if_true] at h
      by_cases hc : x.objReferenceCount = 0
      · rw [liveNodes_cons_dead x r hc]
        exact ih h
      · rw [liveNodes_cons_live x r hc]
        simp only [findNodeLoop, hx, ne_eq, not_false_eq_true, if_true]
        exact ih h

theorem retrieveObject_eq_some (ref : Ref) (s : Pool) (k : Int)
    (h : retrieveObject ref s = some k) :
    s.numObjMngrs ≠ 0 ∧ ref ≠ NULL_REF ∧
      ∃ n, findNodeLoop ref s.indexing = some n ∧ n.objReferenceCount ≠ 0 ∧
        n.memStartIndex = k := by
  unfold retrieveObject findNode at h
  by_cases hinit : s.numObjMngrs ≠ 0
  · by_cases href : ref ≠ NULL_REF
    · rw [if_pos hinit, if_pos href, if_pos href] at h
      cases hfind : findNodeLoop ref s.indexing with
      | none => rw [hfind] at h; cases h
      | some n =>
        rw [hfind] at h
        simp only at h
        by_cases hc : n.objReferenceCount ≠ 0
        · rw [if_pos hc] at h
          exact ⟨hinit, href, n, rfl, hc, Option.some.inj h⟩
        · rw [if_neg hc] at h; cases h
    · rw [if_pos hinit, if_neg href] at h; cases h
  · rw [if_neg hinit] at h; cases h

theorem retrieveObject_of_find (ref : Ref) (s : Pool) (n : Node)
    (hinit : s.numObjMngrs ≠ 0) (href : ref ≠ NULL_REF)
    (hfind : findNodeLoop ref s.indexing = some n) (hc : n.objReferenceCount ≠ 0) :
    retrieveObject ref s = some n.memStartIndex := by
  unfold retrieveObject findNode
  rw [if_pos hinit, if_pos href, if_pos href, hfind]
  simp only []
  rw [if_pos hc]

theorem findNodeLoop_mem (ref : Ref) (l : List Node) (n : Node)
    (h : findNodeLoop ref l = some n) : n ∈ l := by
  obtain ⟨pre, post, hl, _, _⟩ := findNodeLoop_eq_some ref l n h
  rw [hl]
  simp

/-- Under the invariant `compact` returns and keeps every record that has references
findable under its id, with its size, its count and its bytes. -/
theorem inv_compact_keeps (C : Nat) (s : Pool) (h : Inv C s) (ref : Ref) (n : Node)
    (hfind : findNodeLoop ref s.indexing = some n) (hlive : n.objReferenceCount ≠ 0) :
    ∃ s1 n', compact C s = some s1 ∧ Inv C s1 ∧ s1.referenceID = s.referenceID ∧
      findNodeLoop ref s1.indexing = some n' ∧ n'.memSize = n.memSize ∧
      n'.objReferenceCount = n.objReferenceCount ∧
      ∀ j : Nat, j < n.memSize →
        ∃ v, readByte C s.activeBuffer (n.memStartIndex + (j : Int)) = some v ∧
          readByte C s1.activeBuffer (n'.memStartIndex + (j : Int)) = some v := by
  obtain ⟨a, hA⟩ := h.act
  obtain ⟨b, hI⟩ := h.inact
  obtain ⟨b', hc, hbytes⟩ := compact_spec C s a b hA hI (fun n hn _ => h.readable.1 n hn)
    h.readable.2
  obtain ⟨s1, hc1, hinv1, hid1, _, hidx1⟩ := inv_compact C s h
  have hs1 : s1 = _ := Option.some.inj (hc1.symm.trans hc)
  obtain ⟨n', hn', ⟨hid, hsz, hrc⟩, hb⟩ :=
    findNodeLoop_forall₂ ref (forall₂_both (relocate_fields s.indexing 0) hbytes)
      (fun _ _ hr => hr.1.1) n hfind
  have hlive' : n'.objReferenceCount ≠ 0 := by rw [hrc]; exact hlive
  have hfind' := findNodeLoop_liveNodes ref _ n' hn' hlive'
  have hmem' : n' ∈ liveNodes (relocate 0 s.indexing) := findNodeLoop_mem ref _ n' hfind'
  refine ⟨s1, n', hc1, hinv1, hid1, by rw [hidx1]; exact hfind', hsz, hrc, ?_⟩
  intro j hj
  have hbd := mem_liveNodes_relocate_bounds s.indexing n' hmem'
  have hold := h.readable.1 n (findNodeLoop_mem ref _ n hfind)
  have hT := h.readable.2
  refine ⟨a (n.memStartIndex + (j : Int)), ?_, ?_⟩
  · rw [hA]
    have hin : 0 ≤ n.memStartIndex + (j : Int) ∧ n.memStartIndex + (j : Int) < (C : Int) := by
      omega
    simp only [readByte, if_pos hin]
  · rw [hs1]
    have hin : 0 ≤ n'.memStartIndex + (j : Int) ∧
        n'.memStartIndex + (j : Int) < (C : Int) := by
      rw [hsz] at hbd
      omega
    simp only [readByte, if_pos hin, hb hlive j hj]

/-- Under the invariant `insertObject` returns, whatever path it takes, and every
object that could be retrieved before can be retrieved after, with the same size,
count and bytes. -/
theorem inv_insertObject_keeps (C : Nat) (size : Nat) (s : Pool) (h : Inv C s) (ref : Ref)
    (k : Int) (hret : retrieveObject ref s = some k) :
    ∃ r s' n n', insertObject C size s = some (r, s') ∧
      findNode ref s.indexing = some n ∧ n.memStartIndex = k ∧
      findNode ref s'.indexing = some n' ∧
      retrieveObject ref s' = some n'.memStartIndex ∧
      n'.memSize = n.memSize ∧ n'.objReferenceCount = n.objReferenceCount ∧
      ∀ j : Nat, j < n.memSize →
        ∃ v, readByte C s.activeBuffer (k + (j : Int)) = some v ∧
          readByte C s'.activeBuffer (n'.memStartIndex + (j : Int)) = some v := by
  obtain ⟨hinit, href, n, hfind, hlive, hk⟩ := retrieveObject_eq_some ref s k hret
  have hfn : ∀ l : List Node, findNode ref l = findNodeLoop ref l := by
    intro l; unfold findNode; rw [if_pos href]
  obtain ⟨a, hA⟩ := h.act
  have hold := h.readable.1 n (findNodeLoop_mem ref _ n hfind)
  have hsame : ∀ j : Nat, j < n.memSize →
      ∃ v, readByte C s.activeBuffer (k + (j : Int)) = some v ∧
        readByte C s.activeBuffer (n.memStartIndex + (j : Int)) = some v := by
    intro j hj
    have hin : 0 ≤ n.memStartIndex + (j : Int) ∧ n.memStartIndex + (j : Int) < (C : Int) := by
      omega
    refine ⟨a (n.memStartIndex + (j : Int)), ?_, ?_⟩ <;>
      simp only [← hk, hA, readByte, if_pos hin]
  unfold insertObject
  rw [if_pos hinit]
  by_cases hsz : 0 < size ∧ size ≤ C
  · rw [if_pos hsz]
    by_cases hfit : (size : Int) ≤ (C : Int) - s.nextAvailableIndex
    · rw [if_pos hfit, allocateNode_eq]
      have hfind' := findNodeLoop_append_left ref s.indexing
        [⟨s.nextAvailableIndex, size, 1, s.referenceID⟩] n hfind
      refine ⟨_, _, n, n, rfl, by rw [hfn]; exact hfind, hk, by rw [hfn]; exact hfind',
        retrieveObject_of_find ref _ n hinit href hfind' hlive, rfl, rfl, hsame⟩
    · rw [if_neg hfit]
      obtain ⟨s1, n', hc, hinv1, _, hfind1, hsz1, hrc1, hbytes⟩ :=
        inv_compact_keeps C s h ref n hfind hlive
      have hinit1 : s1.numObjMngrs ≠ 0 := by rw [hinv1.init]; decide
      have hlive1 : n'.objReferenceCount ≠ 0 := by rw [hrc1]; exact hlive
      have hbytes' : ∀ j : Nat, j < n.memSize →
          ∃ v, readByte C s.activeBuffer (k + (j : Int)) = some v ∧
            readByte C s1.activeBuffer (n'.memStartIndex + (j : Int)) = some v := by
        intro j hj
        rw [← hk]
        exact hbytes j hj
      rw [hc]
      simp only []
      by_cases hfit1 : (size : Int) ≤ (C : Int) - s1.nextAvailableIndex
      · rw [if_pos hfit1, allocateNode_eq]
        have hfind' := findNodeLoop_append_left ref s1.indexing
          [⟨s1.nextAvailableIndex, size, 1, s1.referenceID⟩] n' hfind1
        exact ⟨_, _, n, n', rfl, by rw [hfn]; exact hfind, hk, by rw [hfn]; exact hfind',
          retrieveObject_of_find ref _ n' hinit1 href hfind' hlive1, hsz1, hrc1, hbytes'⟩
      · rw [if_neg hfit1]
        exact ⟨_, _, n, n', rfl, by rw [hfn]; exact hfind, hk, by rw [hfn]; exact hfind1,
          retrieveObject_of_find ref _ n' hinit1 href hfind1 hlive1, hsz1, hrc1, hbytes'⟩
  · rw [if_neg hsz]
    exact ⟨_, _, n, n, rfl, by rw [hfn]; exact hfind, hk, by rw [hfn]; exact hfind,
      by rw [hret, hk], rfl, rfl, hsame⟩

/-- C15. Live data survives allocation: after `initPool`, every sequence of calls runs
to the end, and in the pool `s` it leaves, for every id that `retrieveObject` resolves
(to the offset `k`) and every size, `insertObject` returns (on the fast path, after a
compaction, or with `NULL_REF`) a pool in which `retrieveObject` still resolves the id;
the record has the same size and count, and each of its bytes is read again at the same
distance from the new location as from the old one. -/
theorem live_data_survives_allocation (MEMORY_SIZE : Nat) (fresh1 fresh2 : Buffer)
    (s0 : Pool) (h0 : s0.numObjMngrs = 0) (cs : List Call) :
    ∃ rs s, runCalls MEMORY_SIZE cs (initPool fresh1 fresh2 s0) = some (rs, s) ∧
      ∀ (ref : Ref) (size : Nat) (k : Int), retrieveObject ref s = some k →
        ∃ r s' n n', insertObject MEMORY_SIZE size s = some (r, s') ∧
          findNode ref s.indexing = some n ∧ n.memStartIndex = k ∧
          findNode ref s'.indexing = some n' ∧
          retrieveObject ref s' = some n'.memStartIndex ∧
          n'.memSize = n.memSize ∧ n'.objReferenceCount = n.objReferenceCount ∧
          ∀ j : Nat, j < n.memSize →
            ∃ v, readByte MEMORY_SIZE s.activeBuffer (k + (j : Int)) = some v ∧
              readByte MEMORY_SIZE s'.activeBuffer (n'.memStartIndex + (j : Int)) = some v := by
  obtain ⟨rs, s, hrun, hinv, _, _⟩ :=
    runCalls_spec MEMORY_SIZE cs _ (inv_initPool MEMORY_SIZE fresh1 fresh2 s0 h0)
  exact ⟨rs, s, hrun, fun ref size k hret =>
    inv_insertObject_keeps MEMORY_SIZE size s hinv ref k hret⟩

/-- Witness for C15: general case 2 of `testRetrieveObject` (objects of 20 and 2000
bytes, the first one dropped), with `MEMORY_SIZE = 524288`; the statement covers the
request of 522286 bytes for the id 2. -/
theorem live_data_survives_allocation_witness :
    ∃ rs s, runCalls 524288 [Call.insert 20, Call.insert 2000, Call.drop 1]
        (initPool zeroBuffer rampBuffer startState) = some (rs, s) ∧
      ∀ (ref : Ref) (size : Nat) (k : Int), retrieveObject ref s = some k →
        ∃ r s' n n', insertObject 524288 size s = some (r, s') ∧
          findNode ref s.indexing = some n ∧ n.memStartIndex = k ∧
          findNode ref s'.indexing = some n' ∧
          retrieveObject ref s' = some n'.memStartIndex ∧
          n'.memSize = n.memSize ∧ n'.objReferenceCount = n.objReferenceCount ∧
          ∀ j : Nat, j < n.memSize →
            ∃ v, readByte 524288 s.activeBuffer (k + (j : Int)) = some v ∧
              readByte 524288 s'.activeBuffer (n'.memStartIndex + (j : Int)) = some v :=
  live_data_survives_allocation 524288 zeroBuffer rampBuffer startState rfl _

/-- Under the invariant, when no record is garbage `compact` returns a pool with the
same index and cursor; only the two buffers have changed places. -/
theorem inv_compact_all_live (C : Nat) (s : Pool) (h : Inv C s)
    (hall : ∀ n ∈ s.indexing, n.objReferenceCount ≠ 0) :
    ∃ s1, compact C s = some s1 ∧ s1.indexing = s.indexing ∧
      s1.nextAvailableIndex = s.nextAvailableIndex ∧ s1.referenceID = s.referenceID ∧
      s1.numObjMngrs = s.numObjMngrs ∧ s1.inactiveBuffer = s.activeBuffer := by
  obtain ⟨a, hA⟩ := h.act
  obtain ⟨b, hI⟩ := h.inact
  obtain ⟨b', hc, _⟩ := compact_spec C s a b hA hI (fun n hn _ => h.readable.1 n hn)
    h.readable.2
  refine ⟨_, hc, ?_, ?_, rfl, rfl, hA.symm⟩
  · show liveNodes (relocate 0 s.indexing) = s.indexing
    rw [relocate_eq_self s.indexing 0 hall h.tiled, liveNodes_of_all_live s.indexing hall]
  · show (liveBytes s.indexing : Int) = s.nextAvailableIndex
    rw [h.cursor]
    unfold liveBytes
    rw [liveNodes_of_all_live s.indexing hall]

/-- C20. Compaction that frees nothing: after `initPool`, every sequence of calls runs
to the end; if in the pool `s` it leaves every record has a positive count, then a
request with `0 < size ≤ MEMORY_SIZE` that does not fit behind the cursor runs
`compact` (the buffers change places), returns `NULL_REF`, and leaves the index (every
record with its offset, size, count and id) and the cursor as they were. -/
theorem compaction_frees_nothing (MEMORY_SIZE : Nat) (fresh1 fresh2 : Buffer) (s0 : Pool)
    (h0 : s0.numObjMngrs = 0) (cs : List Call) :
    ∃ rs s, runCalls MEMORY_SIZE cs (initPool fresh1 fresh2 s0) = some (rs, s) ∧
      ((∀ n ∈ s.indexing, 0 < n.objReferenceCount) →
        ∀ size : Nat, 0 < size → size ≤ MEMORY_SIZE →
          (MEMORY_SIZE : Int) - s.nextAvailableIndex < (size : Int) →
          ∃ s', compact MEMORY_SIZE s = some s' ∧
            insertObject MEMORY_SIZE size s = some (NULL_REF, s') ∧
            s'.indexing = s.indexing ∧ s'.nextAvailableIndex = s.nextAvailableIndex ∧
            s'.referenceID = s.referenceID ∧ s'.inactiveBuffer = s.activeBuffer) := by
  obtain ⟨rs, s, hrun, hinv, _, _⟩ :=
    runCalls_spec MEMORY_SIZE cs _ (inv_initPool MEMORY_SIZE fresh1 fresh2 s0 h0)
  refine ⟨rs, s, hrun, ?_⟩
  intro hall size hpos hcap hfull
  obtain ⟨s1, hc, hidx, hcur, hid, _, hbuf⟩ := inv_compact_all_live MEMORY_SIZE s hinv
    (fun n hn => by have := hall n hn; omega)
  refine ⟨s1, hc, ?_, hidx, hcur, hid, hbuf⟩
  have hinit : s.numObjMngrs ≠ 0 := by rw [hinv.init]; decide
  unfold insertObject
  rw [if_pos hinit, if_pos ⟨hpos, hcap⟩, if_neg (not_le.2 hfull), hc]
  simp only []
  rw [if_neg (by rw [hcur]; exact not_le.2 hfull)]

/-- Witness for C20: general case 2 of `testAddReference` (`insertObject(500000)`,
`addReference`), with `MEMORY_SIZE = 524288`; the statement covers the request of 25000
bytes. -/
theorem compaction_frees_nothing_witness :
    ∃ rs s, runCalls 524288 [Call.insert 500000, Call.add 1]
        (initPool zeroBuffer zeroBuffer startState) = some (rs, s) ∧
      ((∀ n ∈ s.indexing, 0 < n.objReferenceCount) →
        ∀ size : Nat, 0 < size → size ≤ 524288 →
          ((524288 : Nat) : Int) - s.nextAvailableIndex < (size : Int) →
          ∃ s', compact 524288 s = some s' ∧
            insertObject 524288 size s = some (NULL_REF, s') ∧
            s'.indexing = s.indexing ∧ s'.nextAvailableIndex = s.nextAvailableIndex ∧
            s'.referenceID = s.referenceID ∧ s'.inactiveBuffer = s.activeBuffer) :=
  compaction_frees_nothing 524288 zeroBuffer zeroBuffer startState rfl _

/-! ## Claims about the index in reachable states -/

/-- C28. The function `garbageExists`: for every index it returns 1 exactly when some
record has count 0 and 0 exactly when none has (so 0 for the empty index).  It returns
the flag only: the index is not changed. -/
theorem garbageExists_contract (l : List Node) :
    (garbageExists l = 1 ↔ ∃ n ∈ l, n.objReferenceCount = 0) ∧
    (garbageExists l = 0 ↔ ∀ n ∈ l, n.objReferenceCount ≠ 0) ∧
    garbageExists [] = 0 := by
  refine ⟨garbageExists_eq_one_iff l, ?_, rfl⟩
  constructor
  · intro h0 n hn hc
    have h1 := (garbageExists_eq_one_iff l).2 ⟨n, hn, hc⟩
    rw [h0] at h1
    exact absurd h1 (by decide)
  · intro hall
    rcases garbageExists_zero_or_one l with h | h
    · exact h
    · obtain ⟨n, hn, hc⟩ := (garbageExists_eq_one_iff l).1 h
      exact absurd hc (hall n hn)

/-- C25. Index order is handle order: after `initPool`, every sequence of calls runs
to the end and leaves an index whose ids increase strictly from the head to the tail,
whatever compactions have pruned on the way. -/
theorem index_order_is_handle_order (MEMORY_SIZE : Nat) (fresh1 fresh2 : Buffer)
    (s0 : Pool) (h0 : s0.numObjMngrs = 0) (cs : List Call) :
    ∃ rs s, runCalls MEMORY_SIZE cs (initPool fresh1 fresh2 s0) = some (rs, s) ∧
      (handles s.indexing).Pairwise (fun x y => x < y) := by
  obtain ⟨rs, s, hrun, hinv, _, _⟩ :=
    runCalls_spec MEMORY_SIZE cs _ (inv_initPool MEMORY_SIZE fresh1 fresh2 s0 h0)
  exact ⟨rs, s, hrun, hinv.sorted⟩

/-- Witness for C25: the calls of the general cases of `testInsertObject`, where the
last allocation compacts, with `MEMORY_SIZE = 524288`. -/
theorem index_order_is_handle_order_witness :
    ∃ rs s, runCalls 524288
        [Call.insert 1000, Call.insert 500000, Call.insert 24000, Call.drop 2,
          Call.insert 24000]
        (initPool zeroBuffer zeroBuffer startState) = some (rs, s) ∧
      (handles s.indexing).Pairwise (fun x y => x < y) :=
  index_order_is_handle_order 524288 zeroBuffer zeroBuffer startState rfl _

theorem Inv.copy_in_bounds {C : Nat} {s : Pool} (h : Inv C s) : copyInBounds C s :=
  ⟨h.act, h.inact, fun n hn _ => h.readable.1 n hn, h.readable.2⟩

/-- C24. The index tiles the used region: after `initPool`, every sequence of calls
runs to the end, and in the pool it leaves the records, with or without references,
lie back to back from offset 0 in index order (each starts at the sum of the sizes
before it), `nextAvailableIndex` is the sum of all sizes and is at most `MEMORY_SIZE`.
Hence every offset and every end of a range lies in `[0, MEMORY_SIZE]`, the copy phase
of the compactor stays inside both buffers, and `compact` returns. -/
theorem index_tiles_used_region (MEMORY_SIZE : Nat) (fresh1 fresh2 : Buffer) (s0 : Pool)
    (h0 : s0.numObjMngrs = 0) (cs : List Call) :
    ∃ rs s, runCalls MEMORY_SIZE cs (initPool fresh1 fresh2 s0) = some (rs, s) ∧
      tiledFrom 0 s.indexing ∧
      (∀ (i : Nat) (h : i < s.indexing.length),
        (s.indexing.get ⟨i, h⟩).memStartIndex = (totalSize (s.indexing.take i) : Int)) ∧
      s.nextAvailableIndex = (totalSize s.indexing : Int) ∧
      totalSize s.indexing ≤ MEMORY_SIZE ∧
      (∀ n ∈ s.indexing,
        0 ≤ n.memStartIndex ∧ n.memStartIndex + (n.memSize : Int) ≤ (MEMORY_SIZE : Int)) ∧
      copyInBounds MEMORY_SIZE s ∧ ∃ s', compact MEMORY_SIZE s = some s' := by
  obtain ⟨rs, s, hrun, hinv, _, _⟩ :=
    runCalls_spec MEMORY_SIZE cs _ (inv_initPool MEMORY_SIZE fresh1 fresh2 s0 h0)
  refine ⟨rs, s, hrun, hinv.tiled, ?_, hinv.cursor, hinv.fits, hinv.readable.1,
    hinv.copy_in_bounds, compact_defined MEMORY_SIZE s hinv.copy_in_bounds⟩
  intro i h
  have := tiledFrom_get _ 0 hinv.tiled i h
  simpa using this

/-- Witness for C24: the calls of general case 2 of `testDropReference`, with
`MEMORY_SIZE = 524288`. -/
theorem index_tiles_used_region_witness :
    ∃ rs s, runCalls 524288
        [Call.insert 30040, Call.insert 150000, Call.insert 250000, Call.insert 94000,
          Call.add 1, Call.drop 4, Call.drop 3, Call.add 2, Call.insert 1050]
        (initPool zeroBuffer zeroBuffer startState) = some (rs, s) ∧
      tiledFrom 0 s.indexing ∧
      (∀ (i : Nat) (h : i < s.indexing.length),
        (s.indexing.get ⟨i, h⟩).memStartIndex = (totalSize (s.indexing.take i) : Int)) ∧
      s.nextAvailableIndex = (totalSize s.indexing : Int) ∧
      totalSize s.indexing ≤ 524288 ∧
      (∀ n ∈ s.indexing,
        0 ≤ n.memStartIndex ∧ n.memStartIndex + (n.memSize : Int) ≤ ((524288 : Nat) : Int)) ∧
      copyInBounds 524288 s ∧ ∃ s', compact 524288 s = some s' :=
  index_tiles_used_region 524288 zeroBuffer zeroBuffer startState rfl _

theorem handles_nodup_of_sorted (l : List Node)
    (h : (handles l).Pairwise (fun x y => x < y)) : (handles l).Nodup :=
  List.Pairwise.imp (fun hxy => Nat.ne_of_lt hxy) h

/-- C22. No duplicate handles: after `initPool`, every sequence of calls runs to the
end and leaves an index in which no id occurs twice; so for every id `findNode` returns
`NULL` exactly when no record has the id, and every record of the index is the one
`findNode` returns for its id. -/
theorem no_duplicate_handles (MEMORY_SIZE : Nat) (fresh1 fresh2 : Buffer) (s0 : Pool)
    (h0 : s0.numObjMngrs = 0) (cs : List Call) :
    ∃ rs s, runCalls MEMORY_SIZE cs (initPool fresh1 fresh2 s0) = some (rs, s) ∧
      (handles s.indexing).Nodup ∧
      ∀ ref : Ref,
        (findNode ref s.indexing = none ↔ ∀ n ∈ s.indexing, n.objReferenceID ≠ ref) ∧
        ∀ n ∈ s.indexing, n.objReferenceID = ref → findNode ref s.indexing = some n := by
  obtain ⟨rs, s, hrun, hinv, _, _⟩ :=
    runCalls_spec MEMORY_SIZE cs _ (inv_initPool MEMORY_SIZE fresh1 fresh2 s0 h0)
  have hnodup := handles_nodup_of_sorted s.indexing hinv.sorted
  refine ⟨rs, s, hrun, hnodup, ?_⟩
  intro ref
  by_cases href : ref = NULL_REF
  · have hno : ∀ n ∈ s.indexing, n.objReferenceID ≠ ref := by
      intro n hn hid
      have := (hinv.ids n hn).1
      rw [hid, href] at this
      exact absurd this (by decide)
    refine ⟨⟨fun _ => hno, fun _ => by simp [findNode, href]⟩, ?_⟩
    intro n hn hid
    exact absurd hid (hno n hn)
  · have hfn : findNode ref s.indexing = findNodeLoop ref s.indexing := by
      unfold findNode; rw [if_pos href]
    rw [hfn]
    refine ⟨findNodeLoop_eq_none_iff ref s.indexing, ?_⟩
    intro n hn hid
    cases hfind : findNodeLoop ref s.indexing with
    | none => exact absurd hid ((findNodeLoop_eq_none_iff ref _).1 hfind n hn)
    | some m =>
      obtain ⟨pre, post, hl, _, hm⟩ := findNodeLoop_eq_some ref _ m hfind
      have hmem : m ∈ s.indexing := by rw [hl]; simp
      have : m = n := List.inj_on_of_nodup_map hnodup hmem hn (by rw [hm, hid])
      rw [this]

/-- Witness for C22: the calls of the general cases of `testInsertObject`, with
`MEMORY_SIZE = 524288`. -/
theorem no_duplicate_handles_witness :
    ∃ rs s, runCalls 524288
        [Call.insert 1000, Call.insert 500000, Call.insert 24000, Call.drop 2,
          Call.insert 24000]
        (initPool zeroBuffer zeroBuffer startState) = some (rs, s) ∧
      (handles s.indexing).Nodup ∧
      ∀ ref : Ref,
        (findNode ref s.indexing = none ↔ ∀ n ∈ s.indexing, n.objReferenceID ≠ ref) ∧
        ∀ n ∈ s.indexing, n.objReferenceID = ref → findNode ref s.indexing = some n :=
  no_duplicate_handles 524288 zeroBuffer zeroBuffer startState rfl _

/-! ## Claims about the statistics and the success of `insertObject` -/

theorem checkIndex_eq_true_iff (C : Nat) (r : Ref) (l : List Node) :
    checkIndex C r l = true ↔
      ∀ n ∈ l, 0 ≤ n.memStartIndex ∧ 0 < n.memSize ∧ n.memSize ≤ C ∧
        0 ≤ n.objReferenceCount ∧ 0 < n.objReferenceID ∧ n.objReferenceID < r := by
  induction l with
  | nil => simp [checkIndex]
  | cons c rest ih =>
    simp only [checkIndex, Bool.and_eq_true, ih, List.mem_cons, forall_eq_or_imp, checkNode,
      decide_eq_true_eq, and_assoc]

/-- What the invariant gives for each record: the conditions of `checkNode` other than
the one on the count. -/
theorem Inv.bounds {C : Nat} {s : Pool} (h : Inv C s) :
    ∀ n ∈ s.indexing, 0 ≤ n.memStartIndex ∧ 0 < n.memSize ∧ n.memSize ≤ C ∧
      0 < n.objReferenceID ∧ n.objReferenceID < s.referenceID := by
  intro n hn
  have hr := h.readable.1 n hn
  have hs := h.sizes n hn
  exact ⟨hr.1, hs, by omega, h.ids n hn⟩

theorem inv_runCall (C : Nat) (c : Call) (s : Pool) (h : Inv C s) :
    ∃ r s', runCall C c s = some (r, s') ∧ Inv C s' := by
  cases c with
  | insert size =>
    obtain ⟨r, s', hins, hinv, _⟩ := inv_insertObject C size s h
    exact ⟨some r, s', by simp [runCall, hins], hinv⟩
  | add ref => exact ⟨none, _, rfl, inv_addReference C ref s h⟩
  | drop ref => exact ⟨none, _, rfl, inv_dropReference C ref s h⟩
  | retrieve ref => exact ⟨none, s, rfl, h⟩

theorem runCall_not_initialised (C : Nat) (c : Call) (s : Pool) (h0 : s.numObjMngrs = 0) :
    ∃ r, runCall C c s = some (r, s) := by
  cases c with
  | insert size => exact ⟨some NULL_REF, by simp [runCall, insertObject, h0]⟩
  | add ref => exact ⟨none, by simp [runCall, addReference, h0]⟩
  | drop ref => exact ⟨none, by simp [runCall, dropReference, h0]⟩
  | retrieve ref => exact ⟨none, rfl⟩

/-- Every sequence of calls of the interface runs to the end, and leaves either a pool
that satisfies the invariant or a pool that is not initialised and has no index. -/
theorem runPublicCalls_spec (C : Nat) (ops : List PublicCall) : ∀ s : Pool,
    (Inv C s ∨ (s.numObjMngrs = 0 ∧ s.indexing = [])) →
    ∃ s', runPublicCalls C ops s = some s' ∧
      (Inv C s' ∨ (s'.numObjMngrs = 0 ∧ s'.indexing = [])) := by
  induction ops with
  | nil => intro s h; exact ⟨s, rfl, h⟩
  | cons op rest ih =>
    intro s h
    have hstep : ∃ s1, runPublicCall C op s = some s1 ∧
        (Inv C s1 ∨ (s1.numObjMngrs = 0 ∧ s1.indexing = [])) := by
      cases op with
      | init f1 f2 =>
        refine ⟨_, rfl, Or.inl ?_⟩
        rcases h with hinv | ⟨h0, _⟩
        · have hne : s.numObjMngrs ≠ 0 := by rw [hinv.init]; decide
          unfold initPool
          rw [if_neg hne]
          exact hinv
        · exact inv_initPool C f1 f2 s h0
      | destroy =>
        refine ⟨_, rfl, Or.inr ?_⟩
        rcases h with hinv | ⟨h0, hidx⟩
        · simp [destroyPool, hinv.init]
        · simp [destroyPool, h0, hidx]
      | dump => exact ⟨s, rfl, h⟩
      | call c =>
        rcases h with hinv | ⟨h0, hidx⟩
        · obtain ⟨r, s1, hrun, hinv1⟩ := inv_runCall C c s hinv
          exact ⟨s1, by simp [runPublicCall, hrun], Or.inl hinv1⟩
        · obtain ⟨r, hrun⟩ := runCall_not_initialised C c s h0
          exact ⟨s, by simp [runPublicCall, hrun], Or.inr ⟨h0, hidx⟩⟩
    obtain ⟨s1, hrun1, h1⟩ := hstep
    obtain ⟨s', hrun', h'⟩ := ih s1 h1
    exact ⟨s', by simp [runPublicCalls, hrun1, hrun'], h'⟩

/-- After `initPool`, every sequence of calls of the interface runs to the end, and in
the pool it leaves every record has a start offset of at least 0, a size in
`(0, MEMORY_SIZE]` and an id in `(0, referenceID)`: the conditions of `checkNode`
other than the one on the count. -/
theorem record_bounds (MEMORY_SIZE : Nat) (fresh1 fresh2 : Buffer) (s0 : Pool)
    (h0 : s0.numObjMngrs = 0) (ops : List PublicCall) :
    ∃ s, runPublicCalls MEMORY_SIZE ops (initPool fresh1 fresh2 s0) = some s ∧
      ∀ n ∈ s.indexing, 0 ≤ n.memStartIndex ∧ 0 < n.memSize ∧ n.memSize ≤ MEMORY_SIZE ∧
        0 < n.objReferenceID ∧ n.objReferenceID < s.referenceID := by
  obtain ⟨s, hrun, h⟩ := runPublicCalls_spec MEMORY_SIZE ops _
    (Or.inl (inv_initPool MEMORY_SIZE fresh1 fresh2 s0 h0))
  refine ⟨s, hrun, ?_⟩
  rcases h with hinv | ⟨_, hidx⟩
  · exact hinv.bounds
  · intro n hn
    rw [hidx] at hn
    simp at hn

theorem runPublicCalls_map_call (C : Nat) (cs : List Call) : ∀ s : Pool,
    runPublicCalls C (cs.map PublicCall.call) s = (runCalls C cs s).map Prod.snd := by
  induction cs with
  | nil => intro s; rfl
  | cons c rest ih =>
    intro s
    rw [List.map_cons, runPublicCalls, runCalls]
    cases hc : runCall C c s with
    | none => simp [runPublicCall, hc]
    | some p =>
      obtain ⟨r, s1⟩ := p
      simp only [runPublicCall, hc, ih s1]
      cases runCalls C rest s1 with
      | none => rfl
      | some q => rfl

/-- C23, the code at the failing input, with `MEMORY_SIZE = 524288`.  The calls
`initPool`, `insertObject(100)` and 2147483647 times `addReference(1)` run to the end
and leave a pool whose one record has the count `-2147483648`: the record does not meet
the condition `objReferenceCount >= 0` of `checkNode`, and the index does not pass
`checkIndex`. -/
theorem record_invariant_overflow :
    runPublicCalls 524288 ((insertThenAdd 100 2147483647).map PublicCall.call)
        (initPool zeroBuffer zeroBuffer startState) =
      some (singlePool zeroBuffer zeroBuffer 100 (-2147483648)) ∧
    (singlePool zeroBuffer zeroBuffer 100 (-2147483648)).indexing =
      [⟨0, 100, -2147483648, 1⟩] ∧
    checkNode 524288 (singlePool zeroBuffer zeroBuffer 100 (-2147483648)).referenceID
      ⟨0, 100, -2147483648, 1⟩ = false ∧
    checkIndex 524288 (singlePool zeroBuffer zeroBuffer 100 (-2147483648)).referenceID
      (singlePool zeroBuffer zeroBuffer 100 (-2147483648)).indexing = false := by
  refine ⟨?_, rfl, by decide, by decide⟩
  rw [runPublicCalls_map_call, runCalls_insertThenAdd 524288 zeroBuffer zeroBuffer 100
    2147483647 (by decide) (by decide) (by decide)]
  rfl

/-! ## Dead stays dead -/

theorem isDead_allocateNode (ref : Ref) (size : Nat) (s : Pool) (hdead : isDead ref s)
    (hlt : ref < s.referenceID) :
    isDead ref (allocateNode size s).2 ∧ ref < (allocateNode size s).2.referenceID := by
  rw [allocateNode_eq]
  refine ⟨?_, Nat.lt_succ_of_lt hlt⟩
  intro n hn hid
  rcases List.mem_append.1 hn with hn | hn
  · exact hdead n hn hid
  · rw [List.mem_singleton] at hn
    subst hn
    exact absurd hid (Nat.ne_of_gt hlt)

theorem isDead_compact (C : Nat) (ref : Ref) (s s1 : Pool) (hc : compact C s = some s1)
    (hdead : isDead ref s) : isDead ref s1 := by
  obtain ⟨hidx, _, _⟩ := compact_index C s s1 hc
  intro n' hn' hid
  rw [hidx] at hn'
  obtain ⟨n, hn, hnid, _, hrc⟩ := mem_liveNodes_relocate s.indexing 0 n' hn'
  rw [hrc]
  exact hdead n hn (by rw [← hnid]; exact hid)

theorem isDead_insertObject (C : Nat) (ref : Ref) (size : Nat) (s s' : Pool) (r : Ref)
    (hins : insertObject C size s = some (r, s')) (hdead : isDead ref s)
    (hlt : ref < s.referenceID) : isDead ref s' ∧ ref < s'.referenceID := by
  unfold insertObject at hins
  by_cases hinit : s.numObjMngrs ≠ 0
  · rw [if_pos hinit] at hins
    by_cases hsz : 0 < size ∧ size ≤ C
    · rw [if_pos hsz] at hins
      by_cases hfit : (size : Int) ≤ (C : Int) - s.nextAvailableIndex
      · rw [if_pos hfit] at hins
        have h1 : s' = (allocateNode size s).2 :=
          (congrArg Prod.snd (Option.some.inj hins)).symm
        rw [h1]
        exact isDead_allocateNode ref size s hdead hlt
      · rw [if_neg hfit] at hins
        cases hc : compact C s with
        | none => rw [hc] at hins; cases hins
        | some s1 =>
          rw [hc] at hins
          simp only at hins
          have hdead1 := isDead_compact C ref s s1 hc hdead
          have hlt1 : ref < s1.referenceID := by
            rw [(compact_index C s s1 hc).2.1]
            exact hlt
          by_cases hfit1 : (size : Int) ≤ (C : Int) - s1.nextAvailableIndex
          · rw [if_pos hfit1] at hins
            have h1 : s' = (allocateNode size s1).2 :=
              (congrArg Prod.snd (Option.some.inj hins)).symm
            rw [h1]
            exact isDead_allocateNode ref size s1 hdead1 hlt1
          · rw [if_neg hfit1] at hins
            have h1 : s' = s1 := (congrArg Prod.snd (Option.some.inj hins)).symm
            rw [h1]
            exact ⟨hdead1, hlt1⟩
    · rw [if_neg hsz] at hins
      have h1 : s' = s := (congrArg Prod.snd (Option.some.inj hins)).symm
      rw [h1]
      exact ⟨hdead, hlt⟩
  · rw [if_neg hinit] at hins
    have h1 : s' = s := (congrArg Prod.snd (Option.some.inj hins)).symm
    rw [h1]
    exact ⟨hdead, hlt⟩

theorem isDead_set_count (ref : Ref) (s : Pool) (pre : List Node) (n : Node)
    (post : List Node) (c : Int) (hl : s.indexing = pre ++ n :: post)
    (hlive : n.objReferenceCount ≠ 0) (hdead : isDead ref s) :
    isDead ref { s with indexing := pre ++ { n with objReferenceCount := c } :: post } := by
  have hn : n ∈ s.indexing := by rw [hl]; simp
  intro m hm hid
  rcases List.mem_append.1 hm with hm | hm
  · exact hdead m (by rw [hl]; exact List.mem_append_left _ hm) hid
  · rcases List.mem_cons.1 hm with rfl | hm
    · exact absurd (hdead n hn hid) hlive
    · exact hdead m (by rw [hl]; exact List.mem_append_right _ (List.mem_cons_of_mem _ hm)) hid

theorem isDead_runCall (C : Nat) (ref : Ref) (c : Call) (s s' : Pool) (r : Option Ref)
    (hrun : runCall C c s = some (r, s')) (hdead : isDead ref s)
    (hlt : ref < s.referenceID) : isDead ref s' ∧ ref < s'.referenceID := by
  cases c with
  | insert size =>
    simp only [runCall] at hrun
    cases hins : insertObject C size s with
    | none => rw [hins] at hrun; cases hrun
    | some res =>
      obtain ⟨r1, s1⟩ := res
      rw [hins] at hrun
      have h1 : s' = s1 := (congrArg Prod.snd (Option.some.inj hrun)).symm
      rw [h1]
      exact isDead_insertObject C ref size s s1 r1 hins hdead hlt
  | add ref2 =>
    have h1 : s' = addReference ref2 s := (congrArg Prod.snd (Option.some.inj hrun)).symm
    rw [h1]
    rcases addReference_cases ref2 s with heq | ⟨pre, n, post, hl, _, _, hlive, heq⟩
    · rw [heq]; exact ⟨hdead, hlt⟩
    · rw [heq]
      exact ⟨isDead_set_count ref s pre n post _ hl hlive hdead, hlt⟩
  | drop ref2 =>
    have h1 : s' = dropReference ref2 s := (congrArg Prod.snd (Option.some.inj hrun)).symm
    rw [h1]
    rcases dropReference_cases ref2 s with heq | ⟨pre, n, post, hl, _, _, hlive, heq⟩
    · rw [heq]; exact ⟨hdead, hlt⟩
    · rw [heq]
      exact ⟨isDead_set_count ref s pre n post _ hl hlive hdead, hlt⟩
  | retrieve ref2 =>
    have h1 : s' = s := (congrArg Prod.snd (Option.some.inj hrun)).symm
    rw [h1]
    exact ⟨hdead, hlt⟩

theorem isDead_runCalls (C : Nat) (ref : Ref) (cs : List Call) :
    ∀ (s s' : Pool) (rs : List Ref), runCalls C cs s = some (rs, s') → isDead ref s →
      ref < s.referenceID → isDead ref s' := by
  induction cs with
  | nil =>
    intro s s' rs hrun hdead _
    have h1 : s' = s := (congrArg Prod.snd (Option.some.inj hrun)).symm
    rw [h1]
    exact hdead
  | cons c rest ih =>
    intro s s' rs hrun hdead hlt
    simp only [runCalls] at hrun
    cases h1 : runCall C c s with
    | none => rw [h1] at hrun; cases hrun
    | some res1 =>
      obtain ⟨r, s1⟩ := res1
      rw [h1] at hrun
      simp only at hrun
      cases h2 : runCalls C rest s1 with
      | none => rw [h2] at hrun; cases hrun
      | some res2 =>
        obtain ⟨rs2, s2⟩ := res2
        rw [h2] at hrun
        have h3 : s' = s2 := (congrArg Prod.snd (Option.some.inj hrun)).symm
        rw [h3]
        obtain ⟨hd1, hlt1⟩ := isDead_runCall C ref c s s1 r h1 hdead hlt
        exact ih s1 s2 rs2 h2 hd1 hlt1

/-- Under the invariant `retrieveObject` returns `NULL` for an id exactly when the id
is dead. -/
theorem retrieveObject_none_iff_isDead (C : Nat) (ref : Ref) (s : Pool) (h : Inv C s) :
    retrieveObject ref s = none ↔ isDead ref s := by
  have hinit : s.numObjMngrs ≠ 0 := by rw [h.init]; decide
  have hnodup := handles_nodup_of_sorted s.indexing h.sorted
  constructor
  · intro hnone n hn hid
    have href : ref ≠ NULL_REF := by
      rw [← hid]
      exact Nat.pos_iff_ne_zero.1 (h.ids n hn).1
    cases hfind : findNodeLoop ref s.indexing with
    | none => exact absurd hid ((findNodeLoop_eq_none_iff ref _).1 hfind n hn)
    | some m =>
      have hmem := findNodeLoop_mem ref _ m hfind
      obtain ⟨_, _, _, _, hm⟩ := findNodeLoop_eq_some ref _ m hfind
      have hmn : m = n := List.inj_on_of_nodup_map hnodup hmem hn (by rw [hm, hid])
      by_contra hc
      rw [← hmn] at hc
      rw [retrieveObject_of_find ref s m hinit href hfind hc] at hnone
      cases hnone
  · intro hdead
    cases hret : retrieveObject ref s with
    | none => rfl
    | some k =>
      obtain ⟨_, _, n, hfind, hlive, _⟩ := retrieveObject_eq_some ref s k hret
      obtain ⟨_, _, _, _, hn⟩ := findNodeLoop_eq_some ref _ n hfind
      exact absurd (hdead n (findNodeLoop_mem ref _ n hfind) hn) hlive

/-- C26. Dead stays dead: after `initPool`, let a first sequence of calls lead to the
pool `s1` and any further sequence of `insertObject`, `addReference`, `dropReference`
(and `retrieveObject`) calls lead on to `s2`.  Both runs return.  No reference returned
by `insertObject` in the first run is returned again in the second, and every such
reference for which `retrieveObject` is `NULL` in `s1` still gives `NULL` in `s2`. -/
theorem dead_stays_dead (MEMORY_SIZE : Nat) (fresh1 fresh2 : Buffer) (s0 : Pool)
    (h0 : s0.numObjMngrs = 0) (cs1 cs2 : List Call) :
    ∃ rs1 s1, runCalls MEMORY_SIZE cs1 (initPool fresh1 fresh2 s0) = some (rs1, s1) ∧
      ∃ rs2 s2, runCalls MEMORY_SIZE cs2 s1 = some (rs2, s2) ∧
        (∀ ref ∈ successes rs1, ref ∉ successes rs2) ∧
        ∀ ref ∈ successes rs1, retrieveObject ref s1 = none →
          retrieveObject ref s2 = none := by
  obtain ⟨rs1, s1, hrun1, hinv1, hsucc1, hctr1⟩ :=
    runCalls_spec MEMORY_SIZE cs1 _ (inv_initPool MEMORY_SIZE fresh1 fresh2 s0 h0)
  obtain ⟨rs2, s2, hrun2, hinv2, hsucc2, _⟩ := runCalls_spec MEMORY_SIZE cs2 s1 hinv1
  have hlt : ∀ ref ∈ successes rs1, ref < s1.referenceID := by
    intro ref href
    rw [hsucc1, List.mem_range'_1] at href
    rw [hctr1]
    exact href.2
  refine ⟨rs1, s1, hrun1, rs2, s2, hrun2, ?_, ?_⟩
  · intro ref href href2
    rw [hsucc2, List.mem_range'_1] at href2
    exact absurd (hlt ref href) (Nat.not_lt.2 href2.1)
  · intro ref href hnone
    rw [retrieveObject_none_iff_isDead MEMORY_SIZE ref s1 hinv1] at hnone
    rw [retrieveObject_none_iff_isDead MEMORY_SIZE ref s2 hinv2]
    exact isDead_runCalls MEMORY_SIZE ref cs2 s1 s2 rs2 hrun2 hnone (hlt ref href)

/-- Witness for C26: edge case 2 of `testAddReference` (an object of 34000 bytes is
dropped, then `addReference` is called on it), followed by an allocation, with
`MEMORY_SIZE = 524288`. -/
theorem dead_stays_dead_witness :
    ∃ rs1 s1, runCalls 524288 [Call.insert 34000, Call.drop 1]
        (initPool zeroBuffer zeroBuffer startState) = some (rs1, s1) ∧
      ∃ rs2 s2, runCalls 524288 [Call.add 1, Call.insert 500000, Call.add 1] s1 =
          some (rs2, s2) ∧
        (∀ ref ∈ successes rs1, ref ∉ successes rs2) ∧
        ∀ ref ∈ successes rs1, retrieveObject ref s1 = none →
          retrieveObject ref s2 = none :=
  dead_stays_dead 524288 zeroBuffer zeroBuffer startState rfl _ _

end ObjectManager
